import Mathlib

/-!
Shallow embedding of the numeric core of the eyepiece repository
(rconan/eyepiece, Rust), together with proofs settling the claims of the
specification against it.

Conventions of the embedding:
* Rust f64 arithmetic is modelled by exact real arithmetic over ℝ (and ℂ for
  complex buffers); the IEEE special values needed by the star-rejection
  claims are modelled separately by the type F64 below.
* Flat row-major Vec<f64> buffers are modelled as total functions ℕ → ℝ with
  the side length carried separately; complex square buffers used by the DFT
  engine are modelled as two-index functions ℕ → ℕ → ℂ.  Statements are
  always restricted to the in-range indices.
* Rust panics and Err results are modelled by Except String.
* SkyAngle star coordinates are modelled by their radian values
  (SkyAngle::Radian), so that to_radians is the identity.
-/

open Finset

open scoped Classical

namespace Eyepiece

/-! ### f64 to integer conversions (std Rust semantics over the real model) -/

/-- Rust f64::round: round half away from zero. -/
noncomputable def rustRound (x : ℝ) : ℤ :=
  if x < 0 then -⌊-x + 1 / 2⌋ else ⌊x + 1 / 2⌋

/-- Rust f64 as-cast to a signed integer: truncation toward zero
(overflow saturation is not modelled; all uses stay tiny). -/
noncomputable def truncToInt (x : ℝ) : ℤ :=
  if x < 0 then ⌈x⌉ else ⌊x⌋

/-- Rust pattern `x.ceil() as usize`: ceiling, with negative values saturated
to 0 by the unsigned cast. -/
noncomputable def ceilUsize (x : ℝ) : ℕ := (⌈x⌉).toNat

/-! ### Stars and star collections (src/api/src/objects/objects.rs) -/

/-- Star with sky coordinates (radians, see header note) and magnitude. -/
structure Star where
  x : ℝ
  y : ℝ
  magnitude : ℝ

/-- Star::distance: x.to_radians().hypot(y.to_radians()). -/
noncomputable def Star.distance (s : Star) : ℝ :=
  Real.sqrt (s.x ^ 2 + s.y ^ 2)

/-- Star::inside_box: x.to_radians().abs() <= h && y.to_radians().abs() < h
with h = width / 2 (note the asymmetry: <= for x, < for y). -/
def Star.inside_box (s : Star) (width : ℝ) : Prop :=
  |s.x| ≤ width / 2 ∧ |s.y| < width / 2

/-- Comparator used by Objects::brightest – sort ascending by magnitude. -/
def byMagnitude (a b : Star) : Prop := a.magnitude ≤ b.magnitude

/-- Comparator used by Objects::faintest – sort descending by magnitude. -/
def byMagnitudeRev (a b : Star) : Prop := b.magnitude ≤ a.magnitude

/-- Comparator used by Objects::closest – sort ascending by distance. -/
noncomputable def byDistance (a b : Star) : Prop := a.distance ≤ b.distance

/-- Comparator used by Objects::furthest – sort descending by distance. -/
noncomputable def byDistanceRev (a b : Star) : Prop := b.distance ≤ a.distance

/-- Objects::brightest: clone, sort ascending by magnitude, take element 0.
The out-of-range indexing panic of objects[0] on an empty collection is
modelled by Option (head? = none). -/
noncomputable def Objects.brightest (o : List Star) : Option Star :=
  (List.insertionSort byMagnitude o).head?

/-- Objects::faintest: sort descending by magnitude, take element 0. -/
noncomputable def Objects.faintest (o : List Star) : Option Star :=
  (List.insertionSort byMagnitudeRev o).head?

/-- Objects::closest: sort ascending by distance from the optical axis. -/
noncomputable def Objects.closest (o : List Star) : Option Star :=
  (List.insertionSort byDistance o).head?

/-- Objects::furthest: sort descending by distance from the optical axis. -/
noncomputable def Objects.furthest (o : List Star) : Option Star :=
  (List.insertionSort byDistanceRev o).head?

/-! ### Photometry (src/api/src/photometry.rs) -/

/-- PhotometryData record (wavelength in meters, photometric zero point). -/
structure PhotometryData where
  wavelength : ℝ
  zeropoint : ℝ
  spectral_bandwidth : ℝ

/-- The V band entry of the photometric lookup table. -/
noncomputable def vBand : PhotometryData :=
  { wavelength := 0.55e-6, zeropoint := 8.97e9, spectral_bandwidth := 0.09e-6 }

/-- Photometry::n_photon: zeropoint * 10^(-0.4 * magnitude). -/
noncomputable def PhotometryData.n_photon (p : PhotometryData) (magnitude : ℝ) : ℝ :=
  p.zeropoint * (10 : ℝ) ^ (-(0.4) * magnitude)

/-! ### Poisson shot noise (rand_distr Poisson + serial.rs lines 83-92) -/

/-- The rand_distr Poisson distribution record: its shape parameter is the
mean of the distribution. -/
structure Poisson where
  lambda : ℝ

/-- rand_distr Poisson::new: Err(ShapeTooSmall) unless lambda > 0. -/
noncomputable def Poisson.new (lambda : ℝ) : Except String Poisson :=
  if lambda ≤ 0 then Except.error "lambda is too small" else Except.ok { lambda := lambda }

/-- One iteration of the photon-noise loop of Field::intensity
(src/api/src/field/intensity/serial.rs lines 84-91): a zero sample is kept at
exactly zero, any other sample i is replaced by a draw from Poisson::new(i)
(whose unwrap panic, reached for negative samples, is the error case).  The
actual random draw is an external effect, abstracted by the function draw. -/
noncomputable def poissonNoiseStep (draw : Poisson → ℝ) (i : ℝ) : Except String ℝ :=
  if i = 0 then Except.ok 0 else (Poisson.new i).map draw

/-- The photon-noise pass over the whole intensity buffer: the samples are
replaced in order and the first panic aborts the computation. -/
noncomputable def applyPoissonNoise (draw : Poisson → ℝ) : List ℝ → Except String (List ℝ)
  | [] => Except.ok []
  | i :: rest => do
      let v ← poissonNoiseStep draw i
      let vs ← applyPoissonNoise draw rest
      Except.ok (v :: vs)

/-! ### Seeing builder and AO construction guards (src/api/src/seeing.rs,
src/src/adaptive_optics.rs) -/

/-- AdaptiveOpticsCorrection state (transfer-function context elided: it is
built later by init_transfer_function). -/
structure AdaptiveOpticsCorrection where
  strehl_ratio : ℝ
  guide_star : Option Star

/-- SeeingBuilder record. -/
structure SeeingBuilder where
  fried_parameter : ℝ
  outer_scale : ℝ
  adaptive_optics : Option AdaptiveOpticsCorrection

/-- SeeingBuilder::new: outer scale defaults to 25 m, no AO. -/
def SeeingBuilder.new (fried_parameter : ℝ) : SeeingBuilder :=
  { fried_parameter := fried_parameter, outer_scale := 25, adaptive_optics := none }

/-- SeeingBuilder::ngao (src/api/src/seeing.rs lines 87-95): panics (modelled
as Except.error) when strehl_ratio < 0.5, otherwise stores the AO
correction. -/
noncomputable def SeeingBuilder.ngao (sb : SeeingBuilder) (strehl_ratio : ℝ)
    (guide_star : Option Star) : Except String SeeingBuilder :=
  if strehl_ratio < 0.5 then
    Except.error "Strel ratio must be at least 0.5 or higher"
  else
    Except.ok { sb with
      adaptive_optics := some { strehl_ratio := strehl_ratio, guide_star := guide_star } }

/-- The 2.5 cm pupil-sampling floor of the AO transfer function
(src/src/adaptive_optics.rs line 6). -/
noncomputable def DELTA_0 : ℝ := 2.5e-2

/-- AO TransferFunction state; the planned FFT engine is represented by its
length (field len). -/
structure TransferFunctionData where
  len : ℕ
  n_otf : ℕ
  d : ℝ
  kappa : ℕ
  fitting_cutoff : ℝ

/-- TransferFunction::new (src/src/adaptive_optics.rs lines 50-64): panics
(modelled as Except.error) when d < DELTA_0, i.e. when the pupil sampling is
finer than the 2.5 cm floor; otherwise kappa = ceil(d / DELTA_0) and the FFT
length is max(kappa * n_otf, 4096). -/
noncomputable def TransferFunction.new (n_otf : ℕ) (d : ℝ) :
    Except String TransferFunctionData :=
  if d < DELTA_0 then
    Except.error "Pupil sampling is too small, must be greater or equal to 2.5cm"
  else
    Except.ok
      { len := max (ceilUsize (d / DELTA_0) * n_otf) 4096
        n_otf := n_otf
        d := d
        kappa := ceilUsize (d / DELTA_0)
        fitting_cutoff := 0 }

/-! ### IEEE f64 special values (model used for the star-rejection claims)

The real-number model above cannot express NaN and the infinities, which the
non-finite-star claim is about.  F64 refines it: a value is either a finite
real, NaN, +inf or -inf, and the comparison operators follow IEEE-754
semantics (every comparison involving NaN is false). -/

inductive F64 where
  | num (x : ℝ)
  | nan
  | inf
  | ninf

/-- Is the value finite (neither NaN nor infinite)? -/
def F64.isFinite : F64 → Bool
  | F64.num _ => true
  | _ => false

/-- IEEE <= on f64: false whenever either side is NaN. -/
noncomputable def F64.leB : F64 → F64 → Bool
  | F64.num a, F64.num b => decide (a ≤ b)
  | F64.nan, _ => false
  | _, F64.nan => false
  | F64.ninf, _ => true
  | _, F64.inf => true
  | F64.inf, F64.num _ => false
  | F64.inf, F64.ninf => false
  | F64.num _, F64.ninf => false

/-- IEEE < on f64: false whenever either side is NaN. -/
noncomputable def F64.ltB : F64 → F64 → Bool
  | F64.num a, F64.num b => decide (a < b)
  | F64.nan, _ => false
  | _, F64.nan => false
  | F64.ninf, F64.ninf => false
  | F64.ninf, _ => true
  | F64.inf, _ => false
  | F64.num _, F64.inf => true
  | F64.num _, F64.ninf => false

/-- IEEE abs on f64 (abs of NaN is NaN, of either infinity is +inf). -/
noncomputable def F64.abs : F64 → F64
  | F64.num x => F64.num |x|
  | F64.nan => F64.nan
  | F64.inf => F64.inf
  | F64.ninf => F64.inf

/-- to_radians on a SkyAngle::Radian value is the identity on the stored
number; NaN and the infinities are preserved by the (finite, positive) unit
conversion factors of the other units as well. -/
def F64.toRadians : F64 → F64 := fun v => v

/-- IEEE division of an f64 by 2 (finite / 2 is finite, specials are kept). -/
noncomputable def F64.half : F64 → F64
  | F64.num x => F64.num (x / 2)
  | F64.nan => F64.nan
  | F64.inf => F64.inf
  | F64.ninf => F64.ninf

/-- IEEE product of two f64 values, used for the flux chain
n_photon(m) * exposure * resolution^2 (only the combinations reachable there
with positive finite second operand are exercised by the claims). -/
noncomputable def F64.mulPos : F64 → ℝ → F64
  | F64.num x, c => F64.num (x * c)
  | F64.nan, _ => F64.nan
  | F64.inf, _ => F64.inf
  | F64.ninf, _ => F64.ninf

/-- Star over the IEEE value model. -/
structure StarF where
  x : F64
  y : F64
  magnitude : F64

/-- Star::inside_box over the IEEE model (objects.rs lines 35-39):
x.to_radians().abs() <= h && y.to_radians().abs() < h, h = width / 2. -/
noncomputable def StarF.inside_box (s : StarF) (width : F64) : Bool :=
  F64.leB (F64.abs (F64.toRadians s.x)) (F64.half width) &&
    F64.ltB (F64.abs (F64.toRadians s.y)) (F64.half width)

/-- The star-rejection guard of the per-star loop of Field::intensity
(src/api/src/field/intensity/serial.rs lines 40-45): a star failing
inside_box is skipped by continue; the stars below are the ones that reach
the accumulation.  No error path exists in the guard itself. -/
noncomputable def intensitySurvivors (w : F64) (stars : List StarF) : List StarF :=
  stars.filter (fun s => s.inside_box w)

/-- Photometry::n_photon over the IEEE model (photometry.rs lines 46-48),
for a finite positive zero point: 10^(-0.4*NaN) = NaN, 10^(-0.4*inf) = 0,
10^(-0.4*(-inf)) = +inf. -/
noncomputable def nPhotonF (zeropoint : ℝ) : F64 → F64
  | F64.num m => F64.num (zeropoint * (10 : ℝ) ^ (-(0.4) * m))
  | F64.nan => F64.nan
  | F64.inf => F64.num 0
  | F64.ninf => F64.inf

/-! ### Observer capability and pupil synthesis (src/api/src/lib.rs) -/

/-- Observer capability: diameter and pupil sampling resolution in meters,
point-inclusion test on pupil coordinates in meters. -/
structure Observer where
  diameter : ℝ
  resolution : ℝ
  inside_pupil : ℝ → ℝ → Bool

/-- Pupil grid side: (diameter / resolution).round() as usize + 1
(lib.rs line 66). -/
noncomputable def Observer.nPx (o : Observer) : ℕ :=
  (rustRound (o.diameter / o.resolution)).toNat + 1

/-- Observer::pupil (lib.rs lines 64-97): an nPx × nPx complex grid, zero
outside the aperture; inside it is 1, or, when a shift (hx, hy) is given,
from_polar(1, -2π(x hx + y hy)) = exp(-2π(x hx + y hy) i), with
y = (i / (nPx-1) - 0.5) * diameter and x = (j / (nPx-1) - 0.5) * diameter.
The function is total in the indices; only i, j < nPx are meaningful. -/
noncomputable def Observer.pupil (o : Observer) (shift : Option (ℝ × ℝ)) :
    ℕ → ℕ → ℂ := fun i j =>
  let l : ℝ := (o.nPx - 1 : ℕ)
  let y : ℝ := ((i : ℝ) / l - 0.5) * o.diameter
  let x : ℝ := ((j : ℝ) / l - 0.5) * o.diameter
  if o.inside_pupil x y then
    match shift with
    | some (hx, hy) =>
        Complex.exp ((-(2 * Real.pi * (x * hx + y * hy)) : ℝ) * Complex.I)
    | none => 1
  else 0

/-! ### Zero-padded DFT engine (src/api/src/zpdft.rs)

rustfft's forward transform of length L is X[k] = Σ_j x[j] ω^(jk) with
ω = exp(-2πi/L), the inverse uses exp(+2πi/L); neither is normalized.
ZpDft::process runs the planned 1D transform over the L rows of the flat
L×L buffer, transposes, runs it again, and finally divides every element by
L (in both the forward and the inverse engine). -/

namespace ZpDft

/-- The rustfft forward kernel exp(-2πi/L). -/
noncomputable def omegaFwd (L : ℕ) : ℂ := Complex.exp (-(2 * Real.pi * Complex.I) / L)

/-- The rustfft inverse kernel exp(+2πi/L). -/
noncomputable def omegaInv (L : ℕ) : ℂ := Complex.exp (2 * Real.pi * Complex.I / L)

/-- One pass of the planned length-L transform over every row. -/
noncomputable def rowDft (L : ℕ) (w : ℂ) (x : ℕ → ℕ → ℂ) : ℕ → ℕ → ℂ :=
  fun i k => ∑ j in range L, x i j * w ^ (j * k)

/-- The strided re-indexing of process (zpdft.rs lines 111-120):
new[k*L + i] = old[i*L + k], i.e. the matrix transpose. -/
def transposeBuf (x : ℕ → ℕ → ℂ) : ℕ → ℕ → ℂ := fun i j => x j i

/-- ZpDft::process (zpdft.rs lines 106-129): rows pass, transpose, rows pass,
then divide every element by L. -/
noncomputable def process (L : ℕ) (w : ℂ) (x : ℕ → ℕ → ℂ) : ℕ → ℕ → ℂ :=
  fun i k => rowDft L w (transposeBuf (rowDft L w x)) i k / L

/-- The index map of ZpDft::zero_padding: (i - n/2).rem_euclid(len)
(zpdft.rs lines 71-73); Int.emod coincides with rem_euclid for a positive
modulus. -/
def wrapIdx (n L : ℕ) (i : ℕ) : ℕ := (((i : ℤ) - (n : ℤ) / 2) % (L : ℤ)).toNat

/-- ZpDft::zero_padding (zpdft.rs lines 63-82) on a freshly reset (all-zero)
engine buffer.  If the input side n equals the engine length the buffer is
moved in unchanged; otherwise each input element (i, j) is written to the
wrapped position (wrapIdx i, wrapIdx j).  For n ≤ L those positions are
pairwise distinct, so writing into the zero buffer equals the indicator
sum below. -/
noncomputable def zero_padding (n L : ℕ) (x : ℕ → ℕ → ℂ) : ℕ → ℕ → ℂ :=
  if n = L then x
  else fun p q =>
    ∑ i in range n, ∑ j in range n,
      if wrapIdx n L i = p ∧ wrapIdx n L j = q then x i j else 0

/-- ZpDft::shift (zpdft.rs lines 84-97): new[(i+L/2) % L][(j+L/2) % L] =
old[i][j]; reading form of the same permutation. -/
def shiftBuf (L : ℕ) (x : ℕ → ℕ → ℂ) : ℕ → ℕ → ℂ :=
  fun p q => x ((p + (L - L / 2)) % L) ((q + (L - L / 2)) % L)

/-- ZpDft::crop (zpdft.rs lines 149-161): new[i][j] = old[i + ij0][j + ij0]
with ij0 = L/2 - new_len/2. -/
def cropBuf (L new : ℕ) (x : ℕ → ℕ → ℂ) : ℕ → ℕ → ℂ :=
  fun i j => x (i + (L / 2 - new / 2)) (j + (L / 2 - new / 2))

/-- ZpDft::resize (zpdft.rs lines 162-179): crop when shrinking, center into
a larger zero grid when growing (or keeping the same size). -/
def resizeBuf (L new : ℕ) (x : ℕ → ℕ → ℂ) : ℕ → ℕ → ℂ :=
  if new < L then cropBuf L new x
  else fun i j =>
    let ij0 := (new - L) / 2
    if ij0 ≤ i ∧ i < ij0 + L ∧ ij0 ≤ j ∧ j < ij0 + L then x (i - ij0) (j - ij0) else 0

end ZpDft

/-! ### Observing mode: diffraction limited intensity
(src/api/src/field/observing_mode.rs lines 53-78) -/

/-- Observing<DiffractionLimited>::intensity: reset, zero_padding(pupil),
process, shift, resize(intensity_sampling), norm_sqr; returned as the flat
row-major buffer of side intensity_sampling. -/
noncomputable def diffractionIntensity (n_dft n_px intensity_sampling : ℕ)
    (pupil : ℕ → ℕ → ℂ) : ℕ → ℝ := fun k =>
  Complex.normSq
    (ZpDft.resizeBuf n_dft intensity_sampling
      (ZpDft.shiftBuf n_dft
        (ZpDft.process n_dft (ZpDft.omegaFwd n_dft)
          (ZpDft.zero_padding n_px n_dft pupil)))
      (k / intensity_sampling) (k % intensity_sampling))

/-! ### Pixel scale and field of view (src/src/field/pixel_scale.rs,
src/api/src/field/field_of_view.rs)

The photometric-band string parameter of the At-variants is modelled by the
PhotometryData it resolves to through the fixed lookup table. -/

inductive PixelScale where
  | Nyquist (n : ℕ)
  | NyquistAt (n : ℕ) (band : PhotometryData)
  | NyquistFraction (n : ℕ)
  | NyquistFractionAt (n : ℕ) (band : PhotometryData)
  | SkyAngleScale (v : ℝ)

/-- PixelScale::get: resolve to a radian pixel scale. -/
noncomputable def PixelScale.get (ps : PixelScale) (observer : Observer)
    (photometry : PhotometryData) : ℝ :=
  match ps with
  | PixelScale.NyquistFraction n => 0.5 * photometry.wavelength / observer.diameter / n
  | PixelScale.NyquistFractionAt n band => 0.5 * band.wavelength / observer.diameter / n
  | PixelScale.Nyquist n => 0.5 * photometry.wavelength / observer.diameter * n
  | PixelScale.NyquistAt n band => 0.5 * band.wavelength / observer.diameter * n
  | PixelScale.SkyAngleScale v => v

/-- PixelScale::to_nyquist_clamped_ratio: the oversampling factor b; Nyquist
multiples and fractions yield their exact integer or unit value, an absolute
sky angle is clamped through ceil(2 v D / λ).  The f64 ceil is modelled as
the real value of the integer ceiling. -/
noncomputable def PixelScale.toNyquistClamped (ps : PixelScale) (observer : Observer)
    (photometry : PhotometryData) : ℝ :=
  match ps with
  | PixelScale.NyquistFraction _ => 1
  | PixelScale.NyquistFractionAt _ _ => 1
  | PixelScale.Nyquist n => n
  | PixelScale.NyquistAt n _ => n
  | PixelScale.SkyAngleScale v =>
      ((⌈2 * v * observer.diameter / photometry.wavelength⌉ : ℤ) : ℝ)

inductive FieldOfView where
  | PixelCount (n : ℕ)
  | PixelCountAt (n : ℕ) (band : PhotometryData)
  | SkyAngleFov (v : ℝ)

/-! ### The Field record and its intensity computation
(src/api/src/field/field.rs, src/api/src/field/intensity.rs,
src/api/src/field/intensity/serial.rs) -/

/-- The Field state relevant to intensity computation, in diffraction-limited
observing mode (the only mode exercised by the claims below). -/
structure FieldT where
  pixel_scale : PixelScale
  field_of_view : FieldOfView
  photometry : PhotometryData
  objects : List Star
  exposure : ℝ
  poisson_noise : Bool
  observer : Observer
  flux : Option ℝ

/-- Field::resolution: the radian pixel scale. -/
noncomputable def FieldT.resolutionAngle (f : FieldT) : ℝ :=
  f.pixel_scale.get f.observer f.photometry

/-- FieldOfView::get: resolve to a radian field of view. -/
noncomputable def FieldOfView.get (fov : FieldOfView) (f : FieldT) : ℝ :=
  match fov with
  | FieldOfView.PixelCount n => f.resolutionAngle * n
  | FieldOfView.PixelCountAt n band => f.pixel_scale.get f.observer band * n
  | FieldOfView.SkyAngleFov v => v

/-- FieldOfView::to_pixelscale_ratio: number of pixel-scale units covered. -/
noncomputable def FieldOfView.toPixelScaleMult (fov : FieldOfView) (f : FieldT) : ℝ :=
  match fov with
  | FieldOfView.PixelCount n => n
  | FieldOfView.PixelCountAt _ _ => fov.get f / f.resolutionAngle
  | FieldOfView.SkyAngleFov v => v / f.resolutionAngle

/-- Field::field_of_view (radians). -/
noncomputable def FieldT.fieldOfView (f : FieldT) : ℝ := f.field_of_view.get f

/-- The oversampling factor b of Field::intensity (serial.rs lines 14-16). -/
noncomputable def FieldT.b (f : FieldT) : ℝ :=
  f.pixel_scale.toNyquistClamped f.observer f.photometry

/-- intensity_sampling = (b * field_of_view.to_pixelscale_ratio()).ceil() as
usize (serial.rs line 18). -/
noncomputable def FieldT.intensitySampling (f : FieldT) : ℕ :=
  ceilUsize (f.b * f.field_of_view.toPixelScaleMult f)

/-- pupil_size = b * wavelength / resolution (serial.rs line 20). -/
noncomputable def FieldT.pupilSize (f : FieldT) : ℝ :=
  f.b * f.photometry.wavelength / f.resolutionAngle

/-- n_dft before parity matching: (pupil_size / observer.resolution()).ceil()
as usize (serial.rs line 22). -/
noncomputable def FieldT.nDftRaw (f : FieldT) : ℕ :=
  ceilUsize (f.pupilSize / f.observer.resolution)

/-- The parity-matching adjustment of Field::intensity (serial.rs lines
24-26): if intensity_sampling > n_dft and their parities differ, increment
n_dft by 1. -/
def matchedParity (intensity_sampling n_dft : ℕ) : ℕ :=
  if intensity_sampling > n_dft ∧ intensity_sampling % 2 ≠ n_dft % 2 then n_dft + 1
  else n_dft

/-- The DFT grid size used by Field::intensity, after parity matching. -/
noncomputable def FieldT.nDft (f : FieldT) : ℕ :=
  matchedParity f.intensitySampling f.nDftRaw

/-- The per-star pupil phase-ramp frequencies of Field::intensity (serial.rs
lines 51-70), for a star at (x, y): integer pixel offset by rounding against
alpha = resolution / b, fractional residual divided by the wavelength, and a
half-pixel pre-offset 0.5 / pupil_size when intensity_sampling is even. -/
noncomputable def FieldT.starShift (f : FieldT) (s : Star) : ℝ × ℝ :=
  let alpha := f.resolutionAngle / f.b
  let x0 : ℝ := (-(rustRound (s.y / alpha)) : ℤ)
  let y0 : ℝ := ((rustRound (s.x / alpha)) : ℤ)
  let fr_x0 := -s.y - x0 * alpha
  let fr_y0 := s.x - y0 * alpha
  if f.intensitySampling % 2 = 0 then
    (0.5 / f.pupilSize + fr_x0 / f.photometry.wavelength,
     0.5 / f.pupilSize + fr_y0 / f.photometry.wavelength)
  else
    (fr_x0 / f.photometry.wavelength, fr_y0 / f.photometry.wavelength)

/-- shift_and_add (src/api/src/field/intensity.rs lines 7-25), reading form:
output pixel (ii, jj) (flat index kk, side n) receives the tile value at
(ii - i0, jj - j0) when that source index is within the tile. -/
noncomputable def shift_and_add (n : ℕ) (i0 j0 : ℤ) (buffer intensity : ℕ → ℝ) :
    ℕ → ℝ := fun kk =>
  let ii : ℤ := (kk / n : ℕ)
  let jj : ℤ := (kk % n : ℕ)
  buffer kk +
    if 0 ≤ ii - i0 ∧ ii - i0 < n ∧ 0 ≤ jj - j0 ∧ jj - j0 < n then
      intensity ((ii - i0).toNat * n + (jj - j0).toNat)
    else 0

/-- binning (src/api/src/field/intensity.rs lines 27-61).  rows is the
column-trimmed buffer (skip h, take n_buffer per row), matched the transposed
central n_buffer × n_buffer block, and each output pixel block-sums an m × m
tile of matched; all three steps are kept as the index transformations the
iterator chains perform. -/
noncomputable def binning (intensity_sampling m : ℕ) (buffer : ℕ → ℝ) : ℕ → ℝ :=
  let n := intensity_sampling / m
  let n_buffer := n * m
  let h := (intensity_sampling - n_buffer) / 2
  let rows : ℕ → ℝ := fun e =>
    buffer ((e / n_buffer) * intensity_sampling + (h + e % n_buffer))
  let matched : ℕ → ℝ := fun e => rows ((h + e % n_buffer) * n_buffer + e / n_buffer)
  fun k =>
    let i := k / n
    let j := k % n
    ∑ ib in range m, ∑ jb in range m,
      matched ((i * m + ib) * n_buffer + (j * m + jb))

/-- The per-star image tile of Field::intensity (serial.rs lines 46-92):
photon count from the flux override or the photometric chain, pupil
synthesized with the sub-pixel shift and scaled by sqrt(n_photon), pushed
through the observing mode, then the optional photon-noise pass (modelled
with the abstract draw; its zero guard keeps zero samples at zero — the
unwrap panic on negative means is modelled exactly in poissonNoiseStep and
is not reachable here since norm_sqr tiles are nonnegative). -/
noncomputable def FieldT.starTile (f : FieldT) (draw : Poisson → ℝ) (s : Star) :
    ℕ → ℝ :=
  let n_photon :=
    f.flux.getD (f.photometry.n_photon s.magnitude * f.exposure * f.observer.resolution ^ 2)
  let pupil : ℕ → ℕ → ℂ := fun i j =>
    f.observer.pupil (some (f.starShift s)) i j * (Real.sqrt n_photon : ℝ)
  let tile := diffractionIntensity f.nDft f.observer.nPx f.intensitySampling pupil
  if f.poisson_noise then
    fun k => if tile k = 0 then 0 else draw { lambda := tile k }
  else tile

/-- The star image stacking buffer of Field::intensity (serial.rs lines
36-95): starting from the zero buffer of side intensity_sampling, each star
inside the field of view padded by two resolution elements contributes its
tile at its integer pixel offset. -/
noncomputable def FieldT.workingBuffer (f : FieldT) (draw : Poisson → ℝ) : ℕ → ℝ :=
  f.objects.foldl
    (fun buffer s =>
      if s.inside_box (f.fieldOfView + f.resolutionAngle * 2) then
        let alpha := f.resolutionAngle / f.b
        let x0 : ℝ := (-(rustRound (s.y / alpha)) : ℤ)
        let y0 : ℝ := ((rustRound (s.x / alpha)) : ℤ)
        shift_and_add f.intensitySampling (truncToInt x0) (truncToInt y0) buffer
          (f.starTile draw s)
      else buffer)
    (fun _ => 0)

/-- Field::intensity (serial.rs lines 10-104): the stacking buffer, returned
unchanged when m = b as usize is 1, block-binned by binning otherwise. -/
noncomputable def FieldT.intensity (f : FieldT) (draw : Poisson → ℝ) : ℕ → ℝ :=
  let buffer := f.workingBuffer draw
  let m := (truncToInt f.b).toNat
  if m = 1 then buffer else binning f.intensitySampling m buffer

/-! ### Concrete instances used to evaluate the claims -/

/-- A fully open square test aperture: diameter 2.5 cm, sampled at the
default pupil resolution 2.5 cm, every point inside.  Its pupil grid is
2 × 2 with all four samples inside the aperture. -/
noncomputable def sqObserver : Observer :=
  { diameter := 1 / 40, resolution := 1 / 40, inside_pupil := fun _ _ => true }

/-- A single magnitude-0 star at the field center. -/
noncomputable def star0 : Star := { x := 0, y := 0, magnitude := 0 }

/-- A degenerate draw function for the (disabled) photon-noise pass. -/
def drawZero : Poisson → ℝ := fun _ => 0

/-- Field at pixel scale Nyquist/1 (b = 1), 3-pixel field of view, V band,
single centered star, no noise, fixed total-flux override F = 1. -/
noncomputable def fldC2 : FieldT :=
  { pixel_scale := PixelScale.NyquistFraction 1
    field_of_view := FieldOfView.PixelCount 3
    photometry := vBand
    objects := [star0]
    exposure := 1
    poisson_noise := false
    observer := sqObserver
    flux := some 1 }

/-- Field at pixel scale 2 × Nyquist (b = 2) whose absolute field of view is
1.5 pixel scales (3.3e-5 rad at pixel scale 2.2e-5 rad), so that
intensity_sampling = 3 is not divisible by the binning factor m = 2. -/
noncomputable def fldC3 : FieldT :=
  { pixel_scale := PixelScale.Nyquist 2
    field_of_view := FieldOfView.SkyAngleFov (33 / 1000000)
    photometry := vBand
    objects := [star0]
    exposure := 1
    poisson_noise := false
    observer := sqObserver
    flux := some 1 }

/-- Like fldC3 but with a 2-pixel-scale absolute field of view, so that
intensity_sampling = 4 is divisible by m = 2. -/
noncomputable def fldC3W : FieldT :=
  { pixel_scale := PixelScale.Nyquist 2
    field_of_view := FieldOfView.SkyAngleFov (11 / 250000)
    photometry := vBand
    objects := [star0]
    exposure := 1
    poisson_noise := false
    observer := sqObserver
    flux := some 1 }

/-- A star whose x coordinate is NaN. -/
def nanStar : StarF := { x := F64.nan, y := F64.num 0, magnitude := F64.num 0 }

/-- The 2 × 2 all-ones pupil of sqObserver zero-padded into the 3 × 3
engine: every concrete field below reduces its per-star buffer to this. -/
noncomputable def padC : ℕ → ℕ → ℂ := ZpDft.zero_padding 2 3 fun _ _ => 1

/-- The processed spectrum of padC on the 3 × 3 forward engine. -/
noncomputable def specC : ℕ → ℕ → ℂ := ZpDft.process 3 (ZpDft.omegaFwd 3) padC

/-- The concrete per-star tile produced by both fldC2 and fldC3: the 2 × 2
all-ones pupil through the diffraction-limited chain at n_dft =
intensity_sampling = 3. -/
noncomputable def tileC : ℕ → ℝ := diffractionIntensity 3 2 3 fun _ _ => 1

/-! ## Theorems -/

/-! ### Claim C4: parity invariant of the grid sizing -/

theorem matchedParity_spec (a nd : ℕ) :
    a ≤ matchedParity a nd ∨ a % 2 = matchedParity a nd % 2 := by
  unfold matchedParity
  split_ifs with h <;> omega

/-- C4: in Field::intensity's grid sizing, after the parity-matching
adjustment, for every input configuration either intensity_sampling ≤ n_dft
holds or intensity_sampling and n_dft have the same parity. -/
theorem claim_C4_parity_invariant (f : FieldT) :
    f.intensitySampling ≤ f.nDft ∨ f.intensitySampling % 2 = f.nDft % 2 :=
  matchedParity_spec f.intensitySampling f.nDftRaw

/-! ### Claim C5: photon-noise zero guard -/

/-- C5: with photon noise enabled, every nonnegative intensity sample is
replaced by a draw from a Poisson distribution whose mean (lambda) is that
sample, a sample that is exactly zero stays exactly zero, and the pass
succeeds (no Poisson::new(0).unwrap() panic on zero samples). -/
theorem claim_C5_poisson_zero_guard (draw : Poisson → ℝ) (l : List ℝ)
    (h : ∀ v ∈ l, 0 ≤ v) :
    applyPoissonNoise draw l =
      Except.ok (l.map fun v => if v = 0 then 0 else draw { lambda := v }) := by
  induction l with
  | nil => rfl
  | cons a rest ih =>
    have ha : 0 ≤ a := h a (List.mem_cons_self a rest)
    have hrest := ih fun v hv => h v (List.mem_cons_of_mem a hv)
    by_cases h0 : a = 0
    · subst h0
      simp only [applyPoissonNoise, poissonNoiseStep, if_pos rfl, hrest, List.map_cons,
        if_pos]
      rfl
    · have hpos : ¬a ≤ 0 := fun hle => h0 (le_antisymm hle ha)
      simp only [applyPoissonNoise, poissonNoiseStep, if_neg h0, Poisson.new,
        if_neg hpos, Except.map, hrest, List.map_cons]
      rfl

theorem claim_C5_witness :
    applyPoissonNoise drawZero [0, 2] =
      Except.ok ([0, 2].map fun v => if v = 0 then 0 else drawZero { lambda := v }) :=
  claim_C5_poisson_zero_guard drawZero [0, 2] (by
    intro v hv
    rcases List.mem_cons.mp hv with h | hv2
    · rw [h]
    · rcases List.mem_cons.mp hv2 with h | h
      · rw [h]; norm_num
      · simp at h)

/-! ### Claim C6: non-finite stars -/

/-- C6 counterexample: a star whose x coordinate is NaN fails the
inside_box guard of the per-star loop of Field::intensity (every IEEE
comparison with NaN is false), so it is skipped by continue — silently
dropped with no error raised — contrary to the claim that a non-finite
coordinate propagates a numerical error. -/
theorem claim_C6_counterexample :
    nanStar.inside_box (F64.num 1) = false ∧
      intensitySurvivors (F64.num 1) [nanStar] = [] := by
  have h1 : nanStar.inside_box (F64.num 1) = false := by
    simp [StarF.inside_box, nanStar, F64.toRadians, F64.abs, F64.leB, F64.half]
  exact ⟨h1, by simp [intensitySurvivors, List.filter, h1]⟩

/-- C6 amended: a star with a non-finite magnitude does propagate a
non-finite photon count into the accumulation (NaN magnitude gives NaN flux,
-inf magnitude gives +inf flux); but a star with any non-finite coordinate
fails the inside_box test against the (finite) padded field of view and is
silently skipped, not turned into an error. -/
theorem claim_C6_nonfinite_amended :
    (∀ (s : StarF) (w : F64), w.isFinite = true →
        s.x.isFinite = false ∨ s.y.isFinite = false → s.inside_box w = false) ∧
      ∀ zeropoint : ℝ,
        nPhotonF zeropoint F64.nan = F64.nan ∧ nPhotonF zeropoint F64.ninf = F64.inf := by
  refine ⟨?_, fun zeropoint => ⟨rfl, rfl⟩⟩
  intro s w hw hs
  obtain ⟨wv, rfl⟩ : ∃ v, w = F64.num v := by
    cases w with
    | num v => exact ⟨v, rfl⟩
    | nan => simp [F64.isFinite] at hw
    | inf => simp [F64.isFinite] at hw
    | ninf => simp [F64.isFinite] at hw
  obtain ⟨x, y, m⟩ := s
  rcases hs with hx | hy
  · cases x with
    | num v => simp [F64.isFinite] at hx
    | nan => simp [StarF.inside_box, F64.toRadians, F64.abs, F64.leB, F64.half]
    | inf => simp [StarF.inside_box, F64.toRadians, F64.abs, F64.leB, F64.half]
    | ninf => simp [StarF.inside_box, F64.toRadians, F64.abs, F64.leB, F64.half]
  · cases y with
    | num v => simp [F64.isFinite] at hy
    | nan => simp [StarF.inside_box, F64.toRadians, F64.abs, F64.ltB, F64.half]
    | inf => simp [StarF.inside_box, F64.toRadians, F64.abs, F64.ltB, F64.half]
    | ninf => simp [StarF.inside_box, F64.toRadians, F64.abs, F64.ltB, F64.half]

theorem claim_C6_witness :
    StarF.inside_box { x := F64.inf, y := F64.num 0, magnitude := F64.num 0 }
        (F64.num 1) = false ∧
      nPhotonF 1 F64.nan = F64.nan :=
  ⟨claim_C6_nonfinite_amended.1 _ (F64.num 1) rfl (Or.inl rfl),
    (claim_C6_nonfinite_amended.2 1).1⟩

/-! ### Claim C7: pupil synthesis -/

/-- C7: Observer::pupil builds an nPx × nPx grid with
nPx = round(diameter/resolution) + 1; at every in-range sample with pupil
coordinates (x, y) meters, an interior sample carries the unit-modulus value
exp(-2πi (x fx + y fy)) when the shift (fx, fy) is given (and exactly 1
without a shift), and an exterior sample is 0 in both cases. -/
theorem claim_C7_pupil (o : Observer) (fx fy : ℝ) (i j : ℕ)
    (hi : i < o.nPx) (hj : j < o.nPx) :
    o.nPx = (rustRound (o.diameter / o.resolution)).toNat + 1 ∧
      (o.inside_pupil
          (((j : ℝ) / ((o.nPx - 1 : ℕ) : ℝ) - 0.5) * o.diameter)
          (((i : ℝ) / ((o.nPx - 1 : ℕ) : ℝ) - 0.5) * o.diameter) = true →
        o.pupil (some (fx, fy)) i j =
            Complex.exp
              ((-(2 * Real.pi *
                    ((((j : ℝ) / ((o.nPx - 1 : ℕ) : ℝ) - 0.5) * o.diameter) * fx +
                      (((i : ℝ) / ((o.nPx - 1 : ℕ) : ℝ) - 0.5) * o.diameter) * fy)) : ℝ) *
                Complex.I) ∧
          Complex.abs (o.pupil (some (fx, fy)) i j) = 1 ∧
          o.pupil none i j = 1) ∧
      (o.inside_pupil
          (((j : ℝ) / ((o.nPx - 1 : ℕ) : ℝ) - 0.5) * o.diameter)
          (((i : ℝ) / ((o.nPx - 1 : ℕ) : ℝ) - 0.5) * o.diameter) = false →
        o.pupil (some (fx, fy)) i j = 0 ∧ o.pupil none i j = 0) := by
  refine ⟨rfl, fun hin => ?_, fun hout => ?_⟩
  · have hval : o.pupil (some (fx, fy)) i j =
        Complex.exp
          ((-(2 * Real.pi *
                ((((j : ℝ) / ((o.nPx - 1 : ℕ) : ℝ) - 0.5) * o.diameter) * fx +
                  (((i : ℝ) / ((o.nPx - 1 : ℕ) : ℝ) - 0.5) * o.diameter) * fy)) : ℝ) *
            Complex.I) := by
      simp only [Observer.pupil, hin, if_true]
    refine ⟨hval, ?_, ?_⟩
    · rw [hval, Complex.abs_exp]
      simp
    · simp only [Observer.pupil, hin, if_true]
  · constructor <;> simp only [Observer.pupil, hout, Bool.false_eq_true, if_false]

theorem claim_C7_witness :
    sqObserver.nPx = (rustRound (sqObserver.diameter / sqObserver.resolution)).toNat + 1 ∧
      (sqObserver.inside_pupil
          (((0 : ℕ) / ((sqObserver.nPx - 1 : ℕ) : ℝ) - 0.5) * sqObserver.diameter)
          (((0 : ℕ) / ((sqObserver.nPx - 1 : ℕ) : ℝ) - 0.5) * sqObserver.diameter) = true →
        sqObserver.pupil (some (0, 0)) 0 0 =
            Complex.exp
              ((-(2 * Real.pi *
                    ((((0 : ℕ) / ((sqObserver.nPx - 1 : ℕ) : ℝ) - 0.5) * sqObserver.diameter) * 0 +
                      (((0 : ℕ) / ((sqObserver.nPx - 1 : ℕ) : ℝ) - 0.5) * sqObserver.diameter) * 0)) : ℝ) *
                Complex.I) ∧
          Complex.abs (sqObserver.pupil (some (0, 0)) 0 0) = 1 ∧
          sqObserver.pupil none 0 0 = 1) ∧
      (sqObserver.inside_pupil
          (((0 : ℕ) / ((sqObserver.nPx - 1 : ℕ) : ℝ) - 0.5) * sqObserver.diameter)
          (((0 : ℕ) / ((sqObserver.nPx - 1 : ℕ) : ℝ) - 0.5) * sqObserver.diameter) = false →
        sqObserver.pupil (some (0, 0)) 0 0 = 0 ∧ sqObserver.pupil none 0 0 = 0) :=
  claim_C7_pupil sqObserver 0 0 0 0 (Nat.succ_pos _) (Nat.succ_pos _)

/-! ### Claim C8: Strehl-ratio guard -/

/-- C8: SeeingBuilder::ngao aborts exactly when strehl_ratio < 0.5; in
particular strehl_ratio = 0.49 fails fatally while 0.5 succeeds. -/
theorem claim_C8_strehl_guard :
    (∀ (sb : SeeingBuilder) (sr : ℝ) (gs : Option Star),
        (sb.ngao sr gs).isOk = false ↔ sr < 0.5) ∧
      ((SeeingBuilder.new (16 / 100)).ngao 0.49 none).isOk = false ∧
      ((SeeingBuilder.new (16 / 100)).ngao 0.5 none).isOk = true := by
  have key : ∀ (sb : SeeingBuilder) (sr : ℝ) (gs : Option Star),
      (sb.ngao sr gs).isOk = false ↔ sr < 0.5 := by
    intro sb sr gs
    unfold SeeingBuilder.ngao
    split_ifs with h
    · simpa [Except.isOk, Except.toBool] using h
    · simpa [Except.isOk, Except.toBool] using h
  refine ⟨key, ?_, ?_⟩
  · exact (key _ _ _).mpr (by norm_num)
  · have h : ¬(0.5 : ℝ) < 0.5 := lt_irrefl _
    unfold SeeingBuilder.ngao
    rw [if_neg h]
    rfl

/-! ### Claim C9: AO pupil-sampling guard -/

/-- Evaluation of TransferFunction::new at the coarse sampling d = 5 cm. -/
theorem tfNew_coarse_eval :
    TransferFunction.new 16 (5 / 100) =
      Except.ok
        { len := 4096, n_otf := 16, d := 5 / 100, kappa := 2, fitting_cutoff := 0 } := by
  unfold TransferFunction.new
  rw [if_neg (by unfold DELTA_0; norm_num)]
  have hk : ceilUsize (5 / 100 / DELTA_0) = 2 := by
    unfold ceilUsize DELTA_0
    norm_num
    rfl
  rw [hk]
  rfl

/-- C9 counterexample: a pupil sampling resolution of 5 cm — coarser than
the 2.5 cm floor — does NOT abort: TransferFunction::new succeeds and
computes kappa = 2, FFT length 4096.  The guard d < DELTA_0 rejects
samplings finer than the floor, not coarser. -/
theorem claim_C9_counterexample :
    TransferFunction.new 16 (5 / 100) =
      Except.ok
        { len := 4096, n_otf := 16, d := 5 / 100, kappa := 2, fitting_cutoff := 0 } :=
  tfNew_coarse_eval

/-- C9 amended: initializing the AO transfer function aborts exactly when
the pupil sampling resolution is finer than the 2.5 cm floor (d < DELTA_0);
when it succeeds the stored resolution is the given one, never clamped. -/
theorem claim_C9_sampling_guard :
    (∀ (n : ℕ) (d : ℝ), (TransferFunction.new n d).isOk = true ↔ ¬d < DELTA_0) ∧
      ∀ (n : ℕ) (d : ℝ) (tf : TransferFunctionData),
        TransferFunction.new n d = Except.ok tf → tf.d = d := by
  constructor
  · intro n d
    unfold TransferFunction.new
    split_ifs with h
    · simpa [Except.isOk, Except.toBool] using h
    · simpa [Except.isOk, Except.toBool] using h
  · intro n d tf htf
    unfold TransferFunction.new at htf
    by_cases h : d < DELTA_0
    · rw [if_pos h] at htf
      exact absurd htf (by simp)
    · rw [if_neg h] at htf
      have h3 := Except.ok.inj htf
      rw [← h3]

theorem claim_C9_witness :
    ((TransferFunction.new 16 (5 / 100)).isOk = true) ∧
      ({ len := 4096, n_otf := 16, d := 5 / 100, kappa := 2,
          fitting_cutoff := 0 } : TransferFunctionData).d = (5 / 100 : ℝ) :=
  ⟨(claim_C9_sampling_guard.1 16 (5 / 100)).mpr (by unfold DELTA_0; norm_num),
    claim_C9_sampling_guard.2 16 (5 / 100) _ tfNew_coarse_eval⟩

/-! ### Claim C10: aggregate star queries -/

theorem head_sorted_min {r : Star → Star → Prop} [DecidableRel r]
    (htot : ∀ a b, r a b ∨ r b a) (htrans : ∀ a b c, r a b → r b c → r a c)
    (l : List Star) (hl : l ≠ []) :
    ∃ s, (List.insertionSort r l).head? = some s ∧ s ∈ l ∧ ∀ t ∈ l, r s t := by
  haveI : IsTotal Star r := ⟨htot⟩
  haveI : IsTrans Star r := ⟨htrans⟩
  obtain ⟨s, tail, hST⟩ : ∃ s tail, List.insertionSort r l = s :: tail := by
    cases hI : List.insertionSort r l with
    | nil =>
      exfalso
      exact hl ((hI ▸ List.perm_insertionSort r l).nil_eq).symm
    | cons s tail => exact ⟨s, tail, rfl⟩
  have hperm := List.perm_insertionSort r l
  have hsorted := List.sorted_insertionSort r l
  rw [hST] at hperm hsorted
  refine ⟨s, by rw [hST]; rfl, hperm.mem_iff.mp (List.mem_cons_self s tail), ?_⟩
  intro t ht
  rcases List.mem_cons.mp (hperm.mem_iff.mpr ht) with h | h
  · subst h
    exact (htot t t).elim id id
  · exact (List.sorted_cons.mp hsorted).1 t h

/-- C10: on every non-empty collection, Objects::brightest returns a star of
minimal magnitude, Objects::faintest one of maximal magnitude, closest and
furthest the extremes of distance to the optical axis; on the empty
collection all four index out of range (modelled as none) instead of
returning an error value. -/
theorem claim_C10_aggregates :
    (∀ l : List Star, l ≠ [] →
        (∃ s, Objects.brightest l = some s ∧ s ∈ l ∧ ∀ t ∈ l, s.magnitude ≤ t.magnitude) ∧
          (∃ s, Objects.faintest l = some s ∧ s ∈ l ∧ ∀ t ∈ l, t.magnitude ≤ s.magnitude) ∧
          (∃ s, Objects.closest l = some s ∧ s ∈ l ∧ ∀ t ∈ l, s.distance ≤ t.distance) ∧
          (∃ s, Objects.furthest l = some s ∧ s ∈ l ∧ ∀ t ∈ l, t.distance ≤ s.distance)) ∧
      Objects.brightest [] = none ∧ Objects.faintest [] = none ∧
        Objects.closest [] = none ∧ Objects.furthest [] = none := by
  refine ⟨fun l hl => ⟨?_, ?_, ?_, ?_⟩, rfl, rfl, rfl, rfl⟩
  · exact head_sorted_min (fun a b => le_total a.magnitude b.magnitude)
      (fun a b c hab hbc => le_trans hab hbc) l hl
  · exact head_sorted_min (fun a b => le_total b.magnitude a.magnitude)
      (fun a b c hab hbc => le_trans hbc hab) l hl
  · exact head_sorted_min (fun a b => le_total a.distance b.distance)
      (fun a b c hab hbc => le_trans hab hbc) l hl
  · exact head_sorted_min (fun a b => le_total b.distance a.distance)
      (fun a b c hab hbc => le_trans hbc hab) l hl

theorem claim_C10_witness :
    (∃ s, Objects.brightest [star0, star0] = some s ∧ s ∈ [star0, star0] ∧
        ∀ t ∈ [star0, star0], s.magnitude ≤ t.magnitude) ∧
      (∃ s, Objects.faintest [star0, star0] = some s ∧ s ∈ [star0, star0] ∧
        ∀ t ∈ [star0, star0], t.magnitude ≤ s.magnitude) ∧
      (∃ s, Objects.closest [star0, star0] = some s ∧ s ∈ [star0, star0] ∧
        ∀ t ∈ [star0, star0], s.distance ≤ t.distance) ∧
      (∃ s, Objects.furthest [star0, star0] = some s ∧ s ∈ [star0, star0] ∧
        ∀ t ∈ [star0, star0], t.distance ≤ s.distance) :=
  claim_C10_aggregates.1 [star0, star0] (by simp)

/-! ### DFT engine lemmas -/

namespace ZpDft

theorem omegaInv_isPrimitiveRoot (L : ℕ) (hL : 0 < L) :
    IsPrimitiveRoot (omegaInv L) L := by
  unfold omegaInv
  exact Complex.isPrimitiveRoot_exp L hL.ne'

theorem omegaFwd_mul_omegaInv (L : ℕ) : omegaFwd L * omegaInv L = 1 := by
  unfold omegaFwd omegaInv
  rw [← Complex.exp_add]
  have h0 : -(2 * (Real.pi : ℂ) * Complex.I) / (L : ℂ) +
      2 * (Real.pi : ℂ) * Complex.I / (L : ℂ) = 0 := by
    ring
  rw [h0]
  exact Complex.exp_zero

theorem omegaFwd_eq_inv (L : ℕ) : omegaFwd L = (omegaInv L)⁻¹ :=
  eq_inv_of_mul_eq_one_left (omegaFwd_mul_omegaInv L)

theorem omegaInv_ne_zero (L : ℕ) : omegaInv L ≠ 0 := Complex.exp_ne_zero _

/-- Orthogonality of the DFT kernels: summing the forward kernel against the
inverse kernel over one period leaves L on the diagonal and 0 elsewhere. -/
theorem dft_ortho (L : ℕ) (hL : 0 < L) (u v : ℕ) (hu : u < L) (hv : v < L) :
    ∑ a in range L, omegaFwd L ^ (u * a) * omegaInv L ^ (a * v) =
      if u = v then (L : ℂ) else 0 := by
  have hprim := omegaInv_isPrimitiveRoot L hL
  have hne : omegaInv L ≠ 0 := omegaInv_ne_zero L
  have hterm : ∀ a : ℕ, omegaFwd L ^ (u * a) * omegaInv L ^ (a * v) =
      (omegaInv L ^ ((v : ℤ) - (u : ℤ))) ^ a := by
    intro a
    rw [omegaFwd_eq_inv, inv_pow, ← zpow_natCast (omegaInv L) (u * a),
      ← zpow_natCast (omegaInv L) (a * v), ← zpow_neg, ← zpow_add₀ hne,
      ← zpow_natCast (omegaInv L ^ ((v : ℤ) - (u : ℤ))) a, ← zpow_mul]
    congr 1
    push_cast
    ring
  rw [Finset.sum_congr rfl fun a _ => hterm a]
  by_cases huv : u = v
  · subst huv
    rw [if_pos rfl, sub_self, zpow_zero]
    simp
  · rw [if_neg huv]
    have hw : omegaInv L ^ ((v : ℤ) - (u : ℤ)) ≠ 1 := by
      intro h1
      rw [hprim.zpow_eq_one_iff_dvd] at h1
      have habs : |(v : ℤ) - (u : ℤ)| < (L : ℤ) := by
        rw [abs_lt]
        omega
      have hz := Int.eq_zero_of_abs_lt_dvd h1 habs
      omega
    rw [geom_sum_eq hw]
    have hpow : (omegaInv L ^ ((v : ℤ) - (u : ℤ))) ^ L = 1 := by
      rw [← zpow_natCast (omegaInv L ^ ((v : ℤ) - (u : ℤ))) L, ← zpow_mul, mul_comm,
        zpow_mul, zpow_natCast, hprim.pow_eq_one, one_zpow]
    rw [hpow, sub_self, zero_div]

/-- Dividing the buffer before a row pass is the same as dividing after. -/
theorem rowDft_div (L : ℕ) (w : ℂ) (y : ℕ → ℕ → ℂ) (c : ℂ) (i k : ℕ) :
    rowDft L w (fun a b => y a b / c) i k = rowDft L w y i k / c := by
  unfold rowDft
  rw [Finset.sum_div]
  exact Finset.sum_congr rfl fun j _ => by ring

/-- rowDft only reads the row i of its buffer, at columns below L. -/
theorem rowDft_congr (L : ℕ) (w : ℂ) {y z : ℕ → ℕ → ℂ} (i k : ℕ)
    (h : ∀ j ∈ range L, y i j = z i j) : rowDft L w y i k = rowDft L w z i k :=
  Finset.sum_congr rfl fun j hj => by rw [h j hj]

/-- One-dimensional inversion: an unnormalized inverse pass after an
unnormalized forward pass multiplies each in-range sample by L. -/
theorem rowDft_rowDft (L : ℕ) (hL : 0 < L) (x : ℕ → ℕ → ℂ) (i c : ℕ)
    (hc : c < L) :
    rowDft L (omegaInv L) (rowDft L (omegaFwd L) x) i c = L * x i c := by
  unfold rowDft
  simp only [Finset.sum_mul]
  rw [Finset.sum_comm]
  have hinner : ∀ j ∈ range L,
      (∑ a in range L, x i j * omegaFwd L ^ (j * a) * omegaInv L ^ (a * c)) =
        x i j * (if j = c then (L : ℂ) else 0) := by
    intro j hj
    simp only [mul_assoc]
    rw [← Finset.mul_sum, dft_ortho L hL j c (Finset.mem_range.mp hj) hc]
  rw [Finset.sum_congr rfl hinner, Finset.sum_eq_single c]
  · rw [if_pos rfl, mul_comm]
  · intro b _ hbc
    rw [if_neg hbc, mul_zero]
  · intro hcc
    exact absurd (Finset.mem_range.mpr hc) hcc

/-- Round trip of ZpDft::process: an inverse-engine process after a
forward-engine process of the same length is the identity on the L × L
buffer (each process divides once by L, the two unnormalized 2D transforms
contribute the factor L²). -/
theorem process_roundtrip (L : ℕ) (hL : 0 < L) (x : ℕ → ℕ → ℂ) (i k : ℕ)
    (hi : i < L) (hk : k < L) :
    process L (omegaInv L) (process L (omegaFwd L) x) i k = x i k := by
  have hLc : (L : ℂ) ≠ 0 := Nat.cast_ne_zero.mpr hL.ne'
  show rowDft L (omegaInv L)
      (transposeBuf (rowDft L (omegaInv L) (process L (omegaFwd L) x))) i k / L = x i k
  have inner1 : ∀ m c, c < L →
      rowDft L (omegaInv L) (process L (omegaFwd L) x) m c =
        transposeBuf (rowDft L (omegaFwd L) x) m c := by
    intro m c hc
    have h1 : rowDft L (omegaInv L) (process L (omegaFwd L) x) m c =
        rowDft L (omegaInv L)
          (rowDft L (omegaFwd L) (transposeBuf (rowDft L (omegaFwd L) x))) m c / L :=
      rowDft_div L (omegaInv L)
        (rowDft L (omegaFwd L) (transposeBuf (rowDft L (omegaFwd L) x))) (L : ℂ) m c
    rw [h1, rowDft_rowDft L hL _ m c hc]
    field_simp
  have outer : rowDft L (omegaInv L)
      (transposeBuf (rowDft L (omegaInv L) (process L (omegaFwd L) x))) i k =
        rowDft L (omegaInv L) (rowDft L (omegaFwd L) x) i k := by
    refine rowDft_congr L (omegaInv L) i k fun m hm => ?_
    show rowDft L (omegaInv L) (process L (omegaFwd L) x) m i =
      rowDft L (omegaFwd L) x i m
    rw [inner1 m i hi]
    rfl
  rw [outer, rowDft_rowDft L hL x i k hk]
  field_simp

/-- The wrapped placement index is always in range. -/
theorem wrapIdx_lt (n L : ℕ) (hL : 0 < L) (i : ℕ) : wrapIdx n L i < L := by
  unfold wrapIdx
  have hLz : (0 : ℤ) < (L : ℤ) := by exact_mod_cast hL
  have h1 := Int.emod_lt_of_pos ((i : ℤ) - (n : ℤ) / 2) hLz
  have h2 := Int.emod_nonneg ((i : ℤ) - (n : ℤ) / 2) hLz.ne'
  omega

/-- The wrapped placement is injective on the input square when n ≤ L. -/
theorem wrapIdx_inj (n L : ℕ) (hnL : n ≤ L) {a b : ℕ} (ha : a < n) (hb : b < n)
    (h : wrapIdx n L a = wrapIdx n L b) : a = b := by
  unfold wrapIdx at h
  have hL : 0 < L := lt_of_lt_of_le (lt_of_le_of_lt (Nat.zero_le a) ha) hnL
  have hLz : (0 : ℤ) < (L : ℤ) := by exact_mod_cast hL
  have h2a := Int.emod_nonneg ((a : ℤ) - (n : ℤ) / 2) hLz.ne'
  have h2b := Int.emod_nonneg ((b : ℤ) - (n : ℤ) / 2) hLz.ne'
  have hmod : ((a : ℤ) - (n : ℤ) / 2) % (L : ℤ) = ((b : ℤ) - (n : ℤ) / 2) % (L : ℤ) := by
    omega
  have hdvd : (L : ℤ) ∣ ((b : ℤ) - (n : ℤ) / 2) - ((a : ℤ) - (n : ℤ) / 2) :=
    Int.ModEq.dvd hmod
  have hsimp : ((b : ℤ) - (n : ℤ) / 2) - ((a : ℤ) - (n : ℤ) / 2) = (b : ℤ) - (a : ℤ) := by
    ring
  rw [hsimp] at hdvd
  have habs : |(b : ℤ) - (a : ℤ)| < (L : ℤ) := by
    rw [abs_lt]
    omega
  have hz := Int.eq_zero_of_abs_lt_dvd hdvd habs
  omega

/-- Reading the zero-padded buffer back at a wrapped position returns the
input value there (proper-padding case n < L). -/
theorem zero_padding_apply (n L : ℕ) (hnL : n < L) (x : ℕ → ℕ → ℂ) (i j : ℕ)
    (hi : i < n) (hj : j < n) :
    zero_padding n L x (wrapIdx n L i) (wrapIdx n L j) = x i j := by
  unfold zero_padding
  rw [if_neg hnL.ne]
  rw [Finset.sum_eq_single i]
  · rw [Finset.sum_eq_single j]
    · rw [if_pos ⟨rfl, rfl⟩]
    · intro b _ hbj
      rw [if_neg]
      rintro ⟨-, hw⟩
      exact hbj (wrapIdx_inj n L hnL.le (Finset.mem_range.mp (by assumption)) hj hw)
    · intro hj2
      exact absurd (Finset.mem_range.mpr hj) hj2
  · intro b _ hbi
    rw [Finset.sum_eq_zero]
    intro c _
    rw [if_neg]
    rintro ⟨hw, -⟩
    exact hbi (wrapIdx_inj n L hnL.le (Finset.mem_range.mp (by assumption)) hi hw)
  · intro hi2
    exact absurd (Finset.mem_range.mpr hi) hi2

end ZpDft

/-! ### Claim C1: DFT round trip -/

/-- C1: a forward zero-padded DFT (zero_padding then process) followed by an
inverse zero-padded DFT of the same length (zero_padding of the L × L result
is the direct move, then process on the inverse engine) recovers every input
value exactly (in exact arithmetic): at its original position when the input
side equals the engine length, at its wrapped placement position otherwise.
The statement is universal in the engine length L > 0 and input side n ≤ L,
so it covers in particular the sizes 7, 8, 12 and 16. -/
theorem claim_C1_zpdft_roundtrip (L n : ℕ) (hL : 0 < L) (hn : n ≤ L)
    (x : ℕ → ℕ → ℂ) :
    (n = L → ∀ i j, i < n → j < n →
        ZpDft.process L (ZpDft.omegaInv L)
            (ZpDft.zero_padding L L
              (ZpDft.process L (ZpDft.omegaFwd L) (ZpDft.zero_padding n L x))) i j =
          x i j) ∧
      (n < L → ∀ i j, i < n → j < n →
        ZpDft.process L (ZpDft.omegaInv L)
            (ZpDft.zero_padding L L
              (ZpDft.process L (ZpDft.omegaFwd L) (ZpDft.zero_padding n L x)))
            (ZpDft.wrapIdx n L i) (ZpDft.wrapIdx n L j) =
          x i j) := by
  have hmove : ∀ y : ℕ → ℕ → ℂ, ZpDft.zero_padding L L y = y := by
    intro y
    unfold ZpDft.zero_padding
    rw [if_pos rfl]
  constructor
  · intro hEq i j hi hj
    rw [hmove]
    have hzp : ZpDft.zero_padding n L x = x := by
      unfold ZpDft.zero_padding
      rw [if_pos hEq]
    rw [hzp]
    exact ZpDft.process_roundtrip L hL x i j (lt_of_lt_of_le hi hn)
      (lt_of_lt_of_le hj hn)
  · intro hLt i j hi hj
    rw [hmove]
    rw [ZpDft.process_roundtrip L hL (ZpDft.zero_padding n L x)
      (ZpDft.wrapIdx n L i) (ZpDft.wrapIdx n L j) (ZpDft.wrapIdx_lt n L hL i)
      (ZpDft.wrapIdx_lt n L hL j)]
    exact ZpDft.zero_padding_apply n L hLt x i j hi hj

theorem claim_C1_witness :
    ZpDft.process 16 (ZpDft.omegaInv 16)
        (ZpDft.zero_padding 16 16
          (ZpDft.process 16 (ZpDft.omegaFwd 16)
            (ZpDft.zero_padding 8 16 fun i j => (i : ℂ) + 2 * (j : ℂ))))
        (ZpDft.wrapIdx 8 16 3) (ZpDft.wrapIdx 8 16 5) =
      (3 : ℂ) + 2 * (5 : ℂ) := by
  have h := (claim_C1_zpdft_roundtrip 16 8 (by norm_num) (by norm_num)
    fun i j => (i : ℂ) + 2 * (j : ℂ)).2 (by norm_num) 3 5 (by norm_num) (by norm_num)
  simpa using h

/-! ### Parseval for the process transform -/

namespace ZpDft

theorem conj_omegaFwd (L : ℕ) : (starRingEnd ℂ) (omegaFwd L) = omegaInv L := by
  unfold omegaFwd omegaInv
  rw [← Complex.exp_conj]
  congr 1
  simp [map_div₀, Complex.conj_I, map_ofNat, Complex.conj_ofReal]

theorem rowParsevalAux (L : ℕ) (hL : 0 < L) (v : ℕ → ℂ) :
    ∑ k in range L, Complex.normSq (∑ j in range L, v j * omegaFwd L ^ (j * k)) =
      (L : ℝ) * ∑ j in range L, Complex.normSq (v j) := by
  have hC : ((∑ k in range L,
        Complex.normSq (∑ j in range L, v j * omegaFwd L ^ (j * k)) : ℝ) : ℂ) =
      (((L : ℝ) * ∑ j in range L, Complex.normSq (v j) : ℝ) : ℂ) := by
    push_cast
    have hconjS : ∀ k, (starRingEnd ℂ) (∑ j in range L, v j * omegaFwd L ^ (j * k)) =
        ∑ p in range L, (starRingEnd ℂ) (v p) * omegaInv L ^ (p * k) := by
      intro k
      rw [map_sum]
      refine Finset.sum_congr rfl fun p _ => ?_
      rw [map_mul, map_pow, conj_omegaFwd]
    calc
      ∑ k in range L,
          ((Complex.normSq (∑ j in range L, v j * omegaFwd L ^ (j * k)) : ℝ) : ℂ) =
          ∑ k in range L,
            (∑ j in range L, v j * omegaFwd L ^ (j * k)) *
              (starRingEnd ℂ) (∑ j in range L, v j * omegaFwd L ^ (j * k)) := by
        exact Finset.sum_congr rfl fun k _ => (Complex.mul_conj _).symm
      _ = ∑ k in range L, ∑ j in range L, ∑ p in range L,
            v j * omegaFwd L ^ (j * k) * ((starRingEnd ℂ) (v p) * omegaInv L ^ (p * k)) := by
        refine Finset.sum_congr rfl fun k _ => ?_
        rw [hconjS k, Finset.sum_mul_sum]
      _ = ∑ j in range L, ∑ p in range L, ∑ k in range L,
            v j * omegaFwd L ^ (j * k) * ((starRingEnd ℂ) (v p) * omegaInv L ^ (p * k)) := by
        rw [Finset.sum_comm]
        exact Finset.sum_congr rfl fun j _ => Finset.sum_comm
      _ = ∑ j in range L, ∑ p in range L,
            v j * (starRingEnd ℂ) (v p) *
              ∑ k in range L, omegaFwd L ^ (j * k) * omegaInv L ^ (k * p) := by
        refine Finset.sum_congr rfl fun j _ => Finset.sum_congr rfl fun p _ => ?_
        rw [Finset.mul_sum]
        refine Finset.sum_congr rfl fun k _ => ?_
        rw [mul_comm (k : ℕ) p]
        ring
      _ = ∑ j in range L, ∑ p in range L,
            v j * (starRingEnd ℂ) (v p) * (if j = p then (L : ℂ) else 0) := by
        refine Finset.sum_congr rfl fun j hj => Finset.sum_congr rfl fun p hp => ?_
        rw [dft_ortho L hL j p (Finset.mem_range.mp hj) (Finset.mem_range.mp hp)]
      _ = ∑ j in range L, v j * (starRingEnd ℂ) (v j) * (L : ℂ) := by
        refine Finset.sum_congr rfl fun j hj => ?_
        rw [Finset.sum_eq_single j]
        · rw [if_pos rfl]
        · intro p _ hpj
          rw [if_neg fun h => hpj h.symm, mul_zero]
        · intro hj2
          exact absurd hj hj2
      _ = ∑ j in range L, ((Complex.normSq (v j) : ℝ) : ℂ) * (L : ℂ) := by
        refine Finset.sum_congr rfl fun j _ => ?_
        rw [Complex.mul_conj]
      _ = (L : ℂ) * ∑ j in range L, ((Complex.normSq (v j) : ℝ) : ℂ) := by
        rw [← Finset.sum_mul, mul_comm]
  exact_mod_cast hC

/-- One-dimensional Parseval identity phrased on rowDft, over row i. -/
theorem rowParseval (L : ℕ) (hL : 0 < L) (w : ℕ → ℕ → ℂ) (i : ℕ) :
    ∑ k in range L, Complex.normSq (rowDft L (omegaFwd L) w i k) =
      (L : ℝ) * ∑ j in range L, Complex.normSq (w i j) :=
  rowParsevalAux L hL fun j => w i j

/-- Parseval identity for ZpDft::process: the 1/L normalization applied once
after the two unnormalized passes makes the transform energy preserving over
the full L × L grid. -/
theorem process_parseval (L : ℕ) (hL : 0 < L) (x : ℕ → ℕ → ℂ) :
    ∑ i in range L, ∑ k in range L,
        Complex.normSq (process L (omegaFwd L) x i k) =
      ∑ m in range L, ∑ t in range L, Complex.normSq (x m t) := by
  have hLr : ((L : ℝ)) ≠ 0 := Nat.cast_ne_zero.mpr hL.ne'
  have hstep : ∀ i k, Complex.normSq (process L (omegaFwd L) x i k) =
      Complex.normSq
        (rowDft L (omegaFwd L) (transposeBuf (rowDft L (omegaFwd L) x)) i k) /
        ((L : ℝ) * (L : ℝ)) := by
    intro i k
    show Complex.normSq
        (rowDft L (omegaFwd L) (transposeBuf (rowDft L (omegaFwd L) x)) i k / (L : ℂ)) = _
    rw [Complex.normSq_div, Complex.normSq_natCast]
  calc
    ∑ i in range L, ∑ k in range L,
        Complex.normSq (process L (omegaFwd L) x i k) =
        ∑ i in range L, (∑ k in range L,
          Complex.normSq
            (rowDft L (omegaFwd L) (transposeBuf (rowDft L (omegaFwd L) x)) i k)) /
            ((L : ℝ) * (L : ℝ)) := by
      refine Finset.sum_congr rfl fun i _ => ?_
      rw [Finset.sum_div]
      exact Finset.sum_congr rfl fun k _ => hstep i k
    _ = ∑ i in range L, ∑ j in range L,
          Complex.normSq (transposeBuf (rowDft L (omegaFwd L) x) i j) / (L : ℝ) := by
      refine Finset.sum_congr rfl fun i _ => ?_
      rw [rowParseval L hL (transposeBuf (rowDft L (omegaFwd L) x)) i, ← Finset.sum_div]
      field_simp
      ring
    _ = ∑ j in range L, ∑ i in range L,
          Complex.normSq (rowDft L (omegaFwd L) x j i) / (L : ℝ) := by
      rw [Finset.sum_comm]
      exact Finset.sum_congr rfl fun j _ => Finset.sum_congr rfl fun i _ => rfl
    _ = ∑ j in range L, ∑ t in range L, Complex.normSq (x j t) := by
      refine Finset.sum_congr rfl fun j _ => ?_
      rw [← Finset.sum_div, rowParseval L hL x j]
      field_simp

/-- resize to the same length is the identity on the grid. -/
theorem resizeBuf_self (L : ℕ) (x : ℕ → ℕ → ℂ) (i j : ℕ) (hi : i < L)
    (hj : j < L) : resizeBuf L L x i j = x i j := by
  unfold resizeBuf
  rw [if_neg (lt_irrefl L)]
  have h0 : (L - L) / 2 = 0 := by omega
  rw [h0]
  rw [if_pos ⟨Nat.zero_le i, by omega, Nat.zero_le j, by omega⟩]
  rfl

end ZpDft

/-! ### Concrete evaluation: the 2 × 2 open pupil zero-padded to a 3 × 3 DFT

Both concrete fields below (fldC2 with b = 1 and fldC3 with b = 2) lead to
the same per-star tile: the 2 × 2 all-ones pupil (flux override F = 1,
centered star, zero sub-pixel shift) zero-padded into the 3 × 3 forward
engine, processed, shifted and resized (identically) to 3 × 3, then
norm_sqr. -/

namespace ZpDft

theorem padC_apply (p q : ℕ) :
    zero_padding 2 3 (fun _ _ => (1 : ℂ)) p q =
      if (2 = p ∨ 0 = p) ∧ (2 = q ∨ 0 = q) then 1 else 0 := by
  have hw0 : wrapIdx 2 3 0 = 2 := by decide
  have hw1 : wrapIdx 2 3 1 = 0 := by decide
  unfold zero_padding
  rw [if_neg (by norm_num)]
  simp only [Finset.sum_range_succ, Finset.sum_range_zero, zero_add, hw0, hw1]
  by_cases hp2 : 2 = p <;> by_cases hp0 : 0 = p <;> by_cases hq2 : 2 = q <;>
    by_cases hq0 : 0 = q <;> simp_all <;> (exfalso; omega)

theorem omegaFwd3_ne_zero : omegaFwd 3 ≠ 0 := Complex.exp_ne_zero _

theorem omegaFwd3_pow_three : omegaFwd 3 ^ 3 = 1 := by
  have hprim := omegaInv_isPrimitiveRoot 3 (by norm_num)
  rw [omegaFwd_eq_inv, inv_pow, hprim.pow_eq_one, inv_one]

theorem omegaFwd3_ne_one : omegaFwd 3 ≠ 1 := by
  have hprim := omegaInv_isPrimitiveRoot 3 (by norm_num)
  rw [omegaFwd_eq_inv]
  intro h
  exact hprim.ne_one (by norm_num) (inv_eq_one.mp h)

theorem omegaFwd3_sum : 1 + omegaFwd 3 + omegaFwd 3 ^ 2 = 0 := by
  have h := geom_sum_eq omegaFwd3_ne_one 3
  rw [omegaFwd3_pow_three, sub_self, zero_div] at h
  calc 1 + omegaFwd 3 + omegaFwd 3 ^ 2 = ∑ i in range 3, omegaFwd 3 ^ i := by
        rw [Finset.sum_range_succ, Finset.sum_range_succ, Finset.sum_range_succ,
          Finset.sum_range_zero]
        ring
    _ = 0 := h

theorem conj_omegaFwd3 : (starRingEnd ℂ) (omegaFwd 3) = omegaFwd 3 ^ 2 := by
  rw [conj_omegaFwd]
  have h1 : omegaFwd 3 * omegaFwd 3 ^ 2 = 1 := by
    have := omegaFwd3_pow_three
    calc omegaFwd 3 * omegaFwd 3 ^ 2 = omegaFwd 3 ^ 3 := by ring
      _ = 1 := omegaFwd3_pow_three
  have h2 := omegaFwd_mul_omegaInv 3
  exact mul_left_cancel₀ omegaFwd3_ne_zero (h2.trans h1.symm)

/-- Factored closed form of the processed padded all-ones 2 × 2 pupil. -/
theorem padC_process (i k : ℕ) :
    process 3 (omegaFwd 3) (zero_padding 2 3 fun _ _ => (1 : ℂ)) i k =
      (1 + omegaFwd 3 ^ (2 * i)) * (1 + omegaFwd 3 ^ (2 * k)) / 3 := by
  have hrow : ∀ (z : ℕ → ℕ → ℂ) (a b : ℕ), rowDft 3 (omegaFwd 3) z a b =
      z a 0 * omegaFwd 3 ^ (0 * b) + z a 1 * omegaFwd 3 ^ (1 * b) +
        z a 2 * omegaFwd 3 ^ (2 * b) := by
    intro z a b
    unfold rowDft
    rw [Finset.sum_range_succ, Finset.sum_range_succ, Finset.sum_range_succ,
      Finset.sum_range_zero, zero_add]
  show rowDft 3 (omegaFwd 3)
      (transposeBuf (rowDft 3 (omegaFwd 3) (zero_padding 2 3 fun _ _ => (1 : ℂ)))) i k /
        (3 : ℂ) = _
  rw [hrow]
  show (rowDft 3 (omegaFwd 3) (zero_padding 2 3 fun _ _ => (1 : ℂ)) 0 i *
        omegaFwd 3 ^ (0 * k) +
      rowDft 3 (omegaFwd 3) (zero_padding 2 3 fun _ _ => (1 : ℂ)) 1 i *
        omegaFwd 3 ^ (1 * k) +
      rowDft 3 (omegaFwd 3) (zero_padding 2 3 fun _ _ => (1 : ℂ)) 2 i *
        omegaFwd 3 ^ (2 * k)) / (3 : ℂ) = _
  rw [hrow, hrow, hrow]
  rw [padC_apply 0 0, padC_apply 0 1, padC_apply 0 2, padC_apply 1 0, padC_apply 1 1,
    padC_apply 1 2, padC_apply 2 0, padC_apply 2 1, padC_apply 2 2]
  norm_num
  ring

theorem specC_apply (i k : ℕ) :
    specC i k = (1 + omegaFwd 3 ^ (2 * i)) * (1 + omegaFwd 3 ^ (2 * k)) / 3 :=
  padC_process i k

theorem omegaFwd3_pow_four : omegaFwd 3 ^ 4 = omegaFwd 3 := by
  rw [show (4 : ℕ) = 3 + 1 from rfl, pow_add, omegaFwd3_pow_three, one_mul, pow_one]

theorem omegaFwd3_key : (1 + omegaFwd 3) * (1 + omegaFwd 3 ^ 2) = 1 := by
  linear_combination omegaFwd3_sum + omegaFwd3_pow_three

theorem specC_conj (i k : ℕ) :
    (starRingEnd ℂ) (specC i k) =
      (1 + (omegaFwd 3 ^ (2 * i)) ^ 2) * (1 + (omegaFwd 3 ^ (2 * k)) ^ 2) / 3 := by
  rw [specC_apply, map_div₀, map_mul, map_add, map_add, map_one, map_pow, map_pow,
    conj_omegaFwd3, map_ofNat]
  ring

theorem specC_normSq00 : Complex.normSq (specC 0 0) = 16 / 9 := by
  have h : specC 0 0 = ((4 / 3 : ℝ) : ℂ) := by
    rw [specC_apply]
    norm_num
  rw [h, Complex.normSq_ofReal]
  norm_num

theorem specC_normSq20 : Complex.normSq (specC 2 0) = 4 / 9 := by
  have hC : ((Complex.normSq (specC 2 0) : ℝ) : ℂ) = ((4 / 9 : ℝ) : ℂ) := by
    rw [← Complex.mul_conj, specC_conj, specC_apply]
    have h4 : omegaFwd 3 ^ (2 * 2) = omegaFwd 3 := omegaFwd3_pow_four
    have h8 : (omegaFwd 3 ^ (2 * 2)) ^ 2 = omegaFwd 3 ^ 2 := by
      rw [h4]
    have h0 : omegaFwd 3 ^ (2 * 0) = 1 := pow_zero _
    have h0b : (omegaFwd 3 ^ (2 * 0)) ^ 2 = 1 := by
      rw [h0, one_pow]
    rw [h8, h0b, h4, h0]
    push_cast
    calc (1 + omegaFwd 3) * (1 + 1) / 3 * ((1 + omegaFwd 3 ^ 2) * (1 + 1) / 3) =
        (1 + omegaFwd 3) * (1 + omegaFwd 3 ^ 2) * (4 / 9) := by ring
      _ = 4 / 9 := by rw [omegaFwd3_key, one_mul]
  exact_mod_cast hC

theorem specC_normSq02 : Complex.normSq (specC 0 2) = 4 / 9 := by
  have hC : ((Complex.normSq (specC 0 2) : ℝ) : ℂ) = ((4 / 9 : ℝ) : ℂ) := by
    rw [← Complex.mul_conj, specC_conj, specC_apply]
    have h4 : omegaFwd 3 ^ (2 * 2) = omegaFwd 3 := omegaFwd3_pow_four
    have h8 : (omegaFwd 3 ^ (2 * 2)) ^ 2 = omegaFwd 3 ^ 2 := by
      rw [h4]
    have h0 : omegaFwd 3 ^ (2 * 0) = 1 := pow_zero _
    have h0b : (omegaFwd 3 ^ (2 * 0)) ^ 2 = 1 := by
      rw [h0, one_pow]
    rw [h8, h0b, h4, h0]
    push_cast
    calc (1 + 1) * (1 + omegaFwd 3) / 3 * ((1 + 1) * (1 + omegaFwd 3 ^ 2) / 3) =
        (1 + omegaFwd 3) * (1 + omegaFwd 3 ^ 2) * (4 / 9) := by ring
      _ = 4 / 9 := by rw [omegaFwd3_key, one_mul]
  exact_mod_cast hC

theorem specC_normSq22 : Complex.normSq (specC 2 2) = 1 / 9 := by
  have hC : ((Complex.normSq (specC 2 2) : ℝ) : ℂ) = ((1 / 9 : ℝ) : ℂ) := by
    rw [← Complex.mul_conj, specC_conj, specC_apply]
    have h4 : omegaFwd 3 ^ (2 * 2) = omegaFwd 3 := omegaFwd3_pow_four
    have h8 : (omegaFwd 3 ^ (2 * 2)) ^ 2 = omegaFwd 3 ^ 2 := by
      rw [h4]
    rw [h8, h4]
    push_cast
    calc (1 + omegaFwd 3) * (1 + omegaFwd 3) / 3 *
          ((1 + omegaFwd 3 ^ 2) * (1 + omegaFwd 3 ^ 2) / 3) =
        ((1 + omegaFwd 3) * (1 + omegaFwd 3 ^ 2)) ^ 2 * (1 / 9) := by ring
      _ = 1 / 9 := by rw [omegaFwd3_key, one_pow, one_mul]
  exact_mod_cast hC

/-- Parseval on the concrete spectrum: total energy is the 4 pupil samples. -/
theorem specC_total :
    ∑ i in range 3, ∑ k in range 3, Complex.normSq (specC i k) = 4 := by
  unfold specC padC
  rw [process_parseval 3 (by norm_num)]
  simp only [Finset.sum_range_succ, Finset.sum_range_zero, zero_add]
  rw [padC_apply 0 0, padC_apply 0 1, padC_apply 0 2, padC_apply 1 0, padC_apply 1 1,
    padC_apply 1 2, padC_apply 2 0, padC_apply 2 1, padC_apply 2 2]
  norm_num

/-- Pointwise form of the concrete tile. -/
theorem tileC_apply (a b : ℕ) (ha : a < 3) (hb : b < 3) :
    tileC (a * 3 + b) = Complex.normSq (specC ((a + 2) % 3) ((b + 2) % 3)) := by
  unfold tileC diffractionIntensity
  have hdiv : (a * 3 + b) / 3 = a := by omega
  have hmod : (a * 3 + b) % 3 = b := by omega
  rw [hdiv, hmod, resizeBuf_self 3 _ a b ha hb]
  rfl

/-- The concrete tile carries the total energy 4 over its 9 pixels. -/
theorem tileC_sum : ∑ k in range 9, tileC k = 4 := by
  have htot := specC_total
  have h00 := tileC_apply 0 0 (by norm_num) (by norm_num)
  have h01 := tileC_apply 0 1 (by norm_num) (by norm_num)
  have h02 := tileC_apply 0 2 (by norm_num) (by norm_num)
  have h10 := tileC_apply 1 0 (by norm_num) (by norm_num)
  have h11 := tileC_apply 1 1 (by norm_num) (by norm_num)
  have h12 := tileC_apply 1 2 (by norm_num) (by norm_num)
  have h20 := tileC_apply 2 0 (by norm_num) (by norm_num)
  have h21 := tileC_apply 2 1 (by norm_num) (by norm_num)
  have h22 := tileC_apply 2 2 (by norm_num) (by norm_num)
  norm_num at h00 h01 h02 h10 h11 h12 h20 h21 h22
  simp only [Finset.sum_range_succ, Finset.sum_range_zero, zero_add] at htot ⊢
  rw [h00, h01, h02, h10, h11, h12, h20, h21, h22]
  linarith [htot]

end ZpDft

/-! ### Reduction of the two concrete fields to the concrete tile -/

theorem ceilUsize_eval (x : ℝ) (n : ℕ) (h : x = n) : ceilUsize x = n := by
  rw [h]
  unfold ceilUsize
  rw [Int.ceil_natCast]
  exact Int.toNat_natCast n

theorem rustRound_zero : rustRound 0 = 0 := by
  unfold rustRound
  rw [if_neg (lt_irrefl 0)]
  norm_num

theorem rustRound_one : rustRound 1 = 1 := by
  unfold rustRound
  rw [if_neg (by norm_num)]
  norm_num

theorem truncToInt_eval (x : ℝ) (n : ℕ) (h : x = n) : truncToInt x = n := by
  rw [h]
  unfold truncToInt
  rw [if_neg (not_lt.mpr (Nat.cast_nonneg n))]
  norm_num

theorem sqObserver_nPx : sqObserver.nPx = 2 := by
  unfold Observer.nPx
  have h : sqObserver.diameter / sqObserver.resolution = 1 := by
    simp [sqObserver]
  rw [h, rustRound_one]
  rfl

theorem sqPupil_center (i j : ℕ) : sqObserver.pupil (some (0, 0)) i j = 1 := by
  unfold Observer.pupil
  simp only [sqObserver, if_true]
  norm_num

theorem fldC2_b : fldC2.b = 1 := rfl

theorem fldC2_res : fldC2.resolutionAngle = 11 / 1000000 := by
  show PixelScale.get (PixelScale.NyquistFraction 1) sqObserver vBand = 11 / 1000000
  unfold PixelScale.get
  simp [sqObserver, vBand]
  norm_num

theorem fldC2_is : fldC2.intensitySampling = 3 := by
  unfold FieldT.intensitySampling
  refine ceilUsize_eval _ 3 ?_
  show fldC2.b * FieldOfView.toPixelScaleMult (FieldOfView.PixelCount 3) fldC2 = 3
  rw [fldC2_b]
  unfold FieldOfView.toPixelScaleMult
  norm_num

theorem fldC2_pupilSize : fldC2.pupilSize = 1 / 20 := by
  unfold FieldT.pupilSize
  rw [fldC2_b, fldC2_res]
  show 1 * vBand.wavelength / (11 / 1000000) = 1 / 20
  simp [vBand]
  norm_num

theorem fldC2_nDft : fldC2.nDft = 3 := by
  unfold FieldT.nDft
  rw [fldC2_is]
  have hraw : fldC2.nDftRaw = 2 := by
    unfold FieldT.nDftRaw
    refine ceilUsize_eval _ 2 ?_
    rw [fldC2_pupilSize]
    show (1 / 20 : ℝ) / sqObserver.resolution = 2
    simp [sqObserver]
    norm_num
  rw [hraw]
  rfl

theorem fldC2_shift : fldC2.starShift star0 = (0, 0) := by
  unfold FieldT.starShift
  rw [fldC2_is]
  simp [star0, rustRound_zero]



theorem fldC2_tile : fldC2.starTile drawZero star0 = tileC := by
  have hflux : fldC2.flux = some 1 := rfl
  have hobs : fldC2.observer = sqObserver := rfl
  have hnoise : fldC2.poisson_noise = false := rfl
  simp only [FieldT.starTile, hflux, hobs, hnoise, fldC2_shift, fldC2_nDft, fldC2_is,
    sqObserver_nPx, Option.getD_some, Bool.false_eq_true, if_false]
  have hpupil : (fun i j => sqObserver.pupil (some (0, 0)) i j *
      ((Real.sqrt (1 : ℝ) : ℝ) : ℂ)) = fun _ _ => (1 : ℂ) := by
    funext i j
    rw [sqPupil_center]
    norm_num
  rw [hpupil]
  rfl



theorem fldC2_fov : fldC2.fieldOfView = 33 / 1000000 := by
  show FieldOfView.get (FieldOfView.PixelCount 3) fldC2 = 33 / 1000000
  unfold FieldOfView.get
  rw [fldC2_res]
  norm_num

theorem fldC2_buffer (k : ℕ) (hk : k < 9) :
    fldC2.workingBuffer drawZero k = tileC k := by
  unfold FieldT.workingBuffer
  have hobj : fldC2.objects = [star0] := rfl
  rw [hobj]
  simp only [List.foldl_cons, List.foldl_nil]
  have hbox : star0.inside_box (fldC2.fieldOfView + fldC2.resolutionAngle * 2) := by
    unfold Star.inside_box
    rw [fldC2_fov, fldC2_res]
    have hx : star0.x = 0 := rfl
    have hy : star0.y = 0 := rfl
    rw [hx, hy]
    norm_num
  rw [if_pos hbox]
  have hx : star0.x = 0 := rfl
  have hy : star0.y = 0 := rfl
  have htr : truncToInt (0 : ℝ) = 0 := by
    unfold truncToInt
    rw [if_neg (by norm_num)]
    norm_num
  rw [hx, hy, zero_div, rustRound_zero, fldC2_is, fldC2_tile]
  simp only [neg_zero, Int.cast_zero]
  simp only [shift_and_add, htr, sub_zero, Int.toNat_natCast]
  split_ifs with hcond
  · have hidx : k / 3 * 3 + k % 3 = k := by omega
    rw [hidx, zero_add]
  · exact absurd (by omega) hcond



theorem truncToInt_one : truncToInt (1 : ℝ) = 1 := by
  unfold truncToInt
  rw [if_neg (by norm_num)]
  norm_num

theorem fldC2_intensity (k : ℕ) (hk : k < 9) :
    fldC2.intensity drawZero k = tileC k := by
  unfold FieldT.intensity
  rw [fldC2_b, truncToInt_one]
  simp only [Int.toNat_one, if_pos rfl]
  exact fldC2_buffer k hk

/-- C2, evaluation at the failing input: a diffraction-limited field with a
single magnitude-0 star at the center, oversampling b = 1, photon noise
disabled and fixed total-flux override F = 1 (fldC2, with the 2 x 2 fully
open test aperture) produces an intensity array whose total sum is 4 = F
times the number of pupil samples inside the aperture, not F: the flux
override is applied per pupil sample (pupil scaled by sqrt(F), serial.rs
line 76) and the DFT chain preserves that energy, so photon conservation as
the claim and the FieldBuilder::flux doc state it does not hold. -/
theorem claim_C2_flux_not_conserved :
    fldC2.flux = some 1 ∧ (∑ k in range 9, fldC2.intensity drawZero k) = 4 := by
  refine ⟨rfl, ?_⟩
  have h : ∀ k ∈ range 9, fldC2.intensity drawZero k = tileC k := fun k hk =>
    fldC2_intensity k (Finset.mem_range.mp hk)
  rw [Finset.sum_congr rfl h]
  exact ZpDft.tileC_sum



theorem fldC3_b : fldC3.b = 2 := by
  show ((2 : ℕ) : ℝ) = 2
  norm_num

theorem fldC3_res : fldC3.resolutionAngle = 11 / 500000 := by
  show PixelScale.get (PixelScale.Nyquist 2) sqObserver vBand = 11 / 500000
  unfold PixelScale.get
  simp [sqObserver, vBand]
  norm_num

theorem fldC3_is : fldC3.intensitySampling = 3 := by
  unfold FieldT.intensitySampling
  refine ceilUsize_eval _ 3 ?_
  show fldC3.b * FieldOfView.toPixelScaleMult (FieldOfView.SkyAngleFov (33 / 1000000)) fldC3 = 3
  rw [fldC3_b]
  unfold FieldOfView.toPixelScaleMult
  rw [fldC3_res]
  norm_num

theorem fldC3_pupilSize : fldC3.pupilSize = 1 / 20 := by
  unfold FieldT.pupilSize
  rw [fldC3_b, fldC3_res]
  show 2 * vBand.wavelength / (11 / 500000) = 1 / 20
  simp [vBand]
  norm_num

theorem fldC3_nDft : fldC3.nDft = 3 := by
  unfold FieldT.nDft
  rw [fldC3_is]
  have hraw : fldC3.nDftRaw = 2 := by
    unfold FieldT.nDftRaw
    refine ceilUsize_eval _ 2 ?_
    rw [fldC3_pupilSize]
    show (1 / 20 : ℝ) / sqObserver.resolution = 2
    simp [sqObserver]
    norm_num
  rw [hraw]
  rfl

theorem fldC3_shift : fldC3.starShift star0 = (0, 0) := by
  unfold FieldT.starShift
  rw [fldC3_is]
  simp [star0, rustRound_zero]

theorem fldC3_tile : fldC3.starTile drawZero star0 = tileC := by
  have hflux : fldC3.flux = some 1 := rfl
  have hobs : fldC3.observer = sqObserver := rfl
  have hnoise : fldC3.poisson_noise = false := rfl
  simp only [FieldT.starTile, hflux, hobs, hnoise, fldC3_shift, fldC3_nDft, fldC3_is,
    sqObserver_nPx, Option.getD_some, Bool.false_eq_true, if_false]
  have hpupil : (fun i j => sqObserver.pupil (some (0, 0)) i j *
      ((Real.sqrt (1 : ℝ) : ℝ) : ℂ)) = fun _ _ => (1 : ℂ) := by
    funext i j
    rw [sqPupil_center]
    norm_num
  rw [hpupil]
  rfl

theorem fldC3_fov : fldC3.fieldOfView = 33 / 1000000 := rfl

theorem fldC3_buffer (k : ℕ) (hk : k < 9) :
    fldC3.workingBuffer drawZero k = tileC k := by
  unfold FieldT.workingBuffer
  have hobj : fldC3.objects = [star0] := rfl
  rw [hobj]
  simp only [List.foldl_cons, List.foldl_nil]
  have hbox : star0.inside_box (fldC3.fieldOfView + fldC3.resolutionAngle * 2) := by
    unfold Star.inside_box
    rw [fldC3_fov, fldC3_res]
    have hx : star0.x = 0 := rfl
    have hy : star0.y = 0 := rfl
    rw [hx, hy]
    norm_num
  rw [if_pos hbox]
  have hx : star0.x = 0 := rfl
  have hy : star0.y = 0 := rfl
  have htr : truncToInt (0 : ℝ) = 0 := by
    unfold truncToInt
    rw [if_neg (by norm_num)]
    norm_num
  rw [hx, hy, zero_div, rustRound_zero, fldC3_is, fldC3_tile]
  simp only [neg_zero, Int.cast_zero]
  simp only [shift_and_add, htr, sub_zero, Int.toNat_natCast]
  split_ifs with hcond
  · have hidx : k / 3 * 3 + k % 3 = k := by omega
    rw [hidx, zero_add]
  · exact absurd (by omega) hcond

theorem truncToInt_two : truncToInt (2 : ℝ) = 2 := by
  unfold truncToInt
  rw [if_neg (by norm_num)]
  norm_num

theorem fldC3_intensity_eq_binning :
    fldC3.intensity drawZero = binning 3 2 (fldC3.workingBuffer drawZero) := by
  unfold FieldT.intensity
  rw [fldC3_b, truncToInt_two, fldC3_is]
  rfl



theorem tileC_vals :
    tileC 0 = 1 / 9 ∧ tileC 1 = 4 / 9 ∧ tileC 3 = 4 / 9 ∧ tileC 4 = 16 / 9 := by
  have t0 := ZpDft.tileC_apply 0 0 (by norm_num) (by norm_num)
  have t1 := ZpDft.tileC_apply 0 1 (by norm_num) (by norm_num)
  have t3 := ZpDft.tileC_apply 1 0 (by norm_num) (by norm_num)
  have t4 := ZpDft.tileC_apply 1 1 (by norm_num) (by norm_num)
  norm_num at t0 t1 t3 t4
  rw [t0, t1, t3, t4, ZpDft.specC_normSq22, ZpDft.specC_normSq20, ZpDft.specC_normSq02,
    ZpDft.specC_normSq00]
  norm_num

theorem fldC3_binned : fldC3.intensity drawZero 0 = 25 / 9 := by
  rw [fldC3_intensity_eq_binning]
  simp only [binning, Finset.sum_range_succ, Finset.sum_range_zero]
  norm_num
  rw [fldC3_buffer 0 (by norm_num), fldC3_buffer 3 (by norm_num),
    fldC3_buffer 1 (by norm_num), fldC3_buffer 4 (by norm_num)]
  obtain ⟨t0, t1, t3, t4⟩ := tileC_vals
  rw [t0, t1, t3, t4]
  norm_num



theorem sum_range_mul (n m : ℕ) (f : ℕ → ℝ) :
    ∑ k in range (n * m), f k = ∑ i in range n, ∑ b in range m, f (i * m + b) := by
  induction n with
  | zero => simp
  | succ n ih =>
    have hsz : (n + 1) * m = n * m + m := by ring
    rw [hsz, Finset.sum_range_add, ih, Finset.sum_range_succ]



theorem binning_div_apply (is m : ℕ) (hm : 0 < m) (hdvd : m ∣ is) (buf : ℕ → ℝ)
    (i j : ℕ) (hi : i < is / m) (hj : j < is / m) :
    binning is m buf (i * (is / m) + j) =
      ∑ ib in range m, ∑ jb in range m, buf ((j * m + jb) * is + (i * m + ib)) := by
  have hn0 : 0 < is / m := lt_of_le_of_lt (Nat.zero_le i) hi
  have his0 : 0 < is := by
    by_contra hcon
    push_neg at hcon
    have h0 : is = 0 := by omega
    rw [h0, Nat.zero_div] at hn0
    exact absurd hn0 (by omega)
  simp only [binning]
  have hnm : is / m * m = is := Nat.div_mul_cancel hdvd
  rw [hnm]
  have hij : (i * (is / m) + j) / (is / m) = i := by
    rw [mul_comm, Nat.mul_add_div hn0, Nat.div_eq_of_lt hj, Nat.add_zero]
  have hmod : (i * (is / m) + j) % (is / m) = j := by
    rw [mul_comm, Nat.mul_add_mod, Nat.mod_eq_of_lt hj]
  rw [hij, hmod, Nat.sub_self]
  simp only [Nat.zero_div, Nat.zero_add, zero_add]
  refine Finset.sum_congr rfl fun ib hib => Finset.sum_congr rfl fun jb hjb => ?_
  refine congrArg buf ?_
  have hib2 : ib < m := Finset.mem_range.mp hib
  have hjb2 : jb < m := Finset.mem_range.mp hjb
  have hlt1 : j * m + jb < is := by
    calc j * m + jb < j * m + m := by omega
      _ = (j + 1) * m := by ring
      _ ≤ is / m * m := Nat.mul_le_mul_right m hj
      _ = is := hnm
  have hlt2 : i * m + ib < is := by
    calc i * m + ib < i * m + m := by omega
      _ = (i + 1) * m := by ring
      _ ≤ is / m * m := Nat.mul_le_mul_right m hi
      _ = is := hnm
  have hcomm1 : (i * m + ib) * is = is * (i * m + ib) := mul_comm _ _
  have hcomm2 : (j * m + jb) * is = is * (j * m + jb) := mul_comm _ _
  have he_mod : ((i * m + ib) * is + (j * m + jb)) % is = j * m + jb := by
    rw [hcomm1, Nat.mul_add_mod, Nat.mod_eq_of_lt hlt1]
  have he_div : ((i * m + ib) * is + (j * m + jb)) / is = i * m + ib := by
    rw [hcomm1, Nat.mul_add_div his0, Nat.div_eq_of_lt hlt1, Nat.add_zero]
  rw [he_mod, he_div]
  have hE_mod : ((j * m + jb) * is + (i * m + ib)) % is = i * m + ib := by
    rw [hcomm2, Nat.mul_add_mod, Nat.mod_eq_of_lt hlt2]
  have hE_div : ((j * m + jb) * is + (i * m + ib)) / is = j * m + jb := by
    rw [hcomm2, Nat.mul_add_div his0, Nat.div_eq_of_lt hlt2, Nat.add_zero]
  rw [hE_mod, hE_div]



theorem binning_divisible (is m : ℕ) (hm : 0 < m) (hdvd : m ∣ is) (buf : ℕ → ℝ) :
    ∑ k in range ((is / m) * (is / m)), binning is m buf k =
      ∑ k in range (is * is), buf k := by
  have hnm : is / m * m = is := Nat.div_mul_cancel hdvd
  rw [sum_range_mul (is / m) (is / m) (binning is m buf)]
  have h1 : ∀ i ∈ range (is / m), ∀ j ∈ range (is / m),
      binning is m buf (i * (is / m) + j) =
        ∑ ib in range m, ∑ jb in range m, buf ((j * m + jb) * is + (i * m + ib)) :=
    fun i hi j hj => binning_div_apply is m hm hdvd buf i j
      (Finset.mem_range.mp hi) (Finset.mem_range.mp hj)
  rw [Finset.sum_congr rfl fun i hi =>
    Finset.sum_congr rfl fun j hj => h1 i hi j hj]
  have hcollapse : ∀ g : ℕ → ℝ,
      ∑ j in range (is / m), ∑ jb in range m, g (j * m + jb) = ∑ q in range is, g q := by
    intro g
    rw [← sum_range_mul (is / m) m g, hnm]
  calc
    ∑ i in range (is / m), ∑ j in range (is / m), ∑ ib in range m, ∑ jb in range m,
        buf ((j * m + jb) * is + (i * m + ib)) =
        ∑ i in range (is / m), ∑ ib in range m, ∑ j in range (is / m), ∑ jb in range m,
          buf ((j * m + jb) * is + (i * m + ib)) := by
      exact Finset.sum_congr rfl fun i _ => Finset.sum_comm
    _ = ∑ i in range (is / m), ∑ ib in range m, ∑ q in range is,
          buf (q * is + (i * m + ib)) := by
      refine Finset.sum_congr rfl fun i _ => Finset.sum_congr rfl fun ib _ => ?_
      exact hcollapse fun q => buf (q * is + (i * m + ib))
    _ = ∑ p in range is, ∑ q in range is, buf (q * is + p) := by
      exact hcollapse fun p => ∑ q in range is, buf (q * is + p)
    _ = ∑ q in range is, ∑ p in range is, buf (q * is + p) := Finset.sum_comm
    _ = ∑ k in range (is * is), buf k := (sum_range_mul is is buf).symm



/-- C3 counterexample: a field evaluation with b = 2 whose oversampled
working grid is 3 x 3 (absolute field of view of 1.5 pixel scales): the
working buffer carries total flux 4, but the binned output (a single pixel)
sums to 25/9 — binning drops the margin row and column when b does not
divide intensity_sampling, so the claimed flux preservation fails. -/
theorem claim_C3_counterexample :
    fldC3.b = 2 ∧ (∑ k in range 9, fldC3.workingBuffer drawZero k) = 4 ∧
      fldC3.intensity drawZero 0 = 25 / 9 ∧ ((25 : ℝ) / 9 ≠ 4) := by
  refine ⟨fldC3_b, ?_, fldC3_binned, by norm_num⟩
  have h : ∀ k ∈ range 9, fldC3.workingBuffer drawZero k = tileC k := fun k hk =>
    fldC3_buffer k (Finset.mem_range.mp hk)
  rw [Finset.sum_congr rfl h]
  exact ZpDft.tileC_sum

/-- C3 amended: for every field evaluation with b > 1 such that b divides
intensity_sampling (in particular whenever the field of view is given as a
pixel count), the sum of the binned output returned by Field::intensity
equals the sum of the pre-binned working buffer exactly. -/
theorem claim_C3_binning_flux (f : FieldT) (draw : Poisson → ℝ)
    (hm : 1 < (truncToInt f.b).toNat)
    (hdvd : (truncToInt f.b).toNat ∣ f.intensitySampling) :
    ∑ k in range ((f.intensitySampling / (truncToInt f.b).toNat) *
        (f.intensitySampling / (truncToInt f.b).toNat)), f.intensity draw k =
      ∑ k in range (f.intensitySampling * f.intensitySampling),
        f.workingBuffer draw k := by
  simp only [FieldT.intensity]
  rw [if_neg (by omega)]
  exact binning_divisible _ _ (by omega) hdvd _

theorem fldC3W_b : fldC3W.b = 2 := by
  show ((2 : ℕ) : ℝ) = 2
  norm_num

theorem fldC3W_res : fldC3W.resolutionAngle = 11 / 500000 := by
  show PixelScale.get (PixelScale.Nyquist 2) sqObserver vBand = 11 / 500000
  unfold PixelScale.get
  simp [sqObserver, vBand]
  norm_num

theorem fldC3W_is : fldC3W.intensitySampling = 4 := by
  unfold FieldT.intensitySampling
  refine ceilUsize_eval _ 4 ?_
  show fldC3W.b * FieldOfView.toPixelScaleMult (FieldOfView.SkyAngleFov (11 / 250000)) fldC3W = 4
  rw [fldC3W_b]
  unfold FieldOfView.toPixelScaleMult
  rw [fldC3W_res]
  norm_num

theorem fldC3W_m : (truncToInt fldC3W.b).toNat = 2 := by
  rw [fldC3W_b, truncToInt_two]
  rfl

theorem claim_C3_witness :
    ∑ k in range ((fldC3W.intensitySampling / (truncToInt fldC3W.b).toNat) *
        (fldC3W.intensitySampling / (truncToInt fldC3W.b).toNat)),
      fldC3W.intensity drawZero k =
      ∑ k in range (fldC3W.intensitySampling * fldC3W.intensitySampling),
        fldC3W.workingBuffer drawZero k :=
  claim_C3_binning_flux fldC3W drawZero (by rw [fldC3W_m]; norm_num)
    (by rw [fldC3W_m, fldC3W_is]; norm_num)

end Eyepiece
